import Mathlib

/-!
Shallow embedding of the rule-driven configuration container engine in
mailpile/config/base.py (classes _RuledContainer, ConfigList, ConfigDict and
the parse/export paths), together with theorems settling the frozen claims
about it.

Modelling conventions:
- The source imports configparser and urllib.parse, so it runs under
  Python 3 only, and the embedding follows Python 3 semantics throughout.
  Statements in the half-ported code that were legal Python 2 but raise
  under Python 3 — writing str data into io.BytesIO, a four-positional-
  argument ConfigParser.set, calling extend on a dict keys view, hashing
  a slice, deleting dict keys while iterating the keys view — are
  modelled as the exceptions Python 3 raises at those sites.
- Python values that flow through the engine are modelled by the inductive
  type Value.  Machine integers are Lean Int (Python ints are unbounded).
  Floats are not modelled; no claim touches them.
- Exceptions are modelled by Except PyErr.  The PyErr constructors mirror
  the distinct Python exception classes raised by the code.
- Python method recursion (set into a container may construct governed
  sub-containers whose initialisation again calls set) is made total with an
  explicit fuel parameter; fuel is only consumed by nested container work,
  so every theorem quantifies over fuel or instantiates it concretely.
- The write watcher: the source stores a bound method, so every container
  manufactured by rule installation carries a watcher bound to the container
  that was constructed standalone (the tree root).  We model this with a
  selfBound flag: a standalone container has selfBound = true, manufactured
  sub-containers have selfBound = false, and a successful write emits a
  signal that bubbles up and sets the changed flag of the nearest enclosing
  selfBound container.  Side effects of writes whose enclosing operation
  later raises are not tracked (the functional model discards state on
  error); no claim depends on them.
-/

namespace Mailpile

/-- Python exception classes raised or caught by the engine.  ValueError
covers plain ValueError; configValue is ConfigValueError and invalidKey is
InvalidKeyError, both subclasses of ValueError.  keyError and indexError are
the dict/list lookup errors. accessDenied is AccessError, usageError is
UsageError (both from mailpile.util), unknownConstraint is the bare
Exception raised for an unhandled checker, runtimeError is RuntimeError
(raised by a dict iterator that detects a size change), and fuelOut is the
artificial out-of-fuel marker of the embedding. ignoreValue is
validators.IgnoreValue, the silently-ignore sentinel; it never escapes a
set. -/
inductive PyErr where
  | valueError (msg : String)
  | configValue (msg : String)
  | invalidKey (msg : String)
  | keyError (msg : String)
  | indexError (msg : String)
  | typeError (msg : String)
  | attrError (msg : String)
  | accessDenied (msg : String)
  | usageError (msg : String)
  | unknownConstraint (msg : String)
  | runtimeError (msg : String)
  | ignoreValue
  | fuelOut

/-- The registered coercion checkers the model implements, cInt and cStr are
the Python builtins int and str, cBool is validators.BoolCheck and cIgnore
is validators.IgnoreCheck.  The other registry entries (file/dir/url
checks etc.) live in the missing validators module and are not needed by
any claim. -/
inductive CoTag where
  | cInt
  | cStr
  | cBool
  | cIgnore
deriving DecidableEq

mutual

/-- A Python value handled by the engine: None, int, bool, str, a plain
dict literal, a plain list literal, or a governed container. -/
inductive Value where
  | vNil
  | vInt (n : Int)
  | vBool (b : Bool)
  | vStr (s : String)
  | vMap (entries : List (String × Value))
  | vArr (items : List Value)
  | vDict (d : CDict)
  | vList (l : CList)

/-- ConfigDict: name and comment identity, the selfBound watcher flag and
changed flag (see module comment), the installed rules and the underlying
dict value store (insertion ordered, keys unique). -/
inductive CDict where
  | mk (name comment : String) (selfBound changed : Bool)
       (rules : List (String × Rule)) (store : List (String × Value))

/-- ConfigList: like CDict but the value store is a sequence. -/
inductive CList where
  | mk (name comment : String) (selfBound changed : Bool)
       (rules : List (String × Rule)) (items : List Value)

/-- A schema rule [comment, checker, default] plus its access tags
(the _types attribute added by PublicConfigRule and friends). -/
inductive Rule where
  | mk (comment : String) (check : Checker) (dflt : Dflt) (types : List String)

/-- The default slot of a rule: a scalar value, a Python dict written in
the schema (either a nested rule map or the empty dict), or a Python list
(legal only when empty). -/
inductive Dflt where
  | v (val : Value)
  | dmap (rs : List (String × Rule))
  | dlist (vs : List Value)

/-- A checker as stored in a rule: the literal constants True and False, an
unresolved symbolic name, a literal-set (list/tuple/set) of legal values, a
registered coercion, a dict-of-rules used as checker (resolved lazily by
get_rule), or a class manufactured by _MakeCheck over ConfigDict or
ConfigList. -/
inductive Checker where
  | cTrue
  | cFalse
  | cSym (s : String)
  | enum (opts : List Value)
  | co (t : CoTag)
  | nestedRules (rs : List (String × Rule))
  | mkDict (name comment : String) (rs : List (String × Rule))
  | mkList (name comment : String) (rs : List (String × Rule))

end

namespace CDict

def name : CDict → String
  | .mk n _ _ _ _ _ => n

def comment : CDict → String
  | .mk _ c _ _ _ _ => c

def selfBound : CDict → Bool
  | .mk _ _ sb _ _ _ => sb

def changed : CDict → Bool
  | .mk _ _ _ ch _ _ => ch

def rules : CDict → List (String × Rule)
  | .mk _ _ _ _ rs _ => rs

def store : CDict → List (String × Value)
  | .mk _ _ _ _ _ st => st

end CDict

namespace CList

def name : CList → String
  | .mk n _ _ _ _ _ => n

def comment : CList → String
  | .mk _ c _ _ _ _ => c

def selfBound : CList → Bool
  | .mk _ _ sb _ _ _ => sb

def changed : CList → Bool
  | .mk _ _ _ ch _ _ => ch

def rules : CList → List (String × Rule)
  | .mk _ _ _ _ rs _ => rs

def items : CList → List Value
  | .mk _ _ _ _ _ it => it

end CList

namespace Rule

def comment : Rule → String
  | .mk c _ _ _ => c

def check : Rule → Checker
  | .mk _ ch _ _ => ch

def dflt : Rule → Dflt
  | .mk _ _ d _ => d

def types : Rule → List String
  | .mk _ _ _ t => t

end Rule

/-- The default slot of a rule as the Value returned by reads that fall
back to RULE_DEFAULT. -/
def Dflt.toValue : Dflt → Value
  | .v val => val
  | .dmap _ => Value.vMap []
  | .dlist vs => Value.vArr vs

/-! ## Association list helpers (Python dict semantics) -/

/-- Store update with Python dict semantics: an existing key keeps its
position, a new key is appended. -/
def alSet (k : String) (v : Value) : List (String × Value) → List (String × Value)
  | [] => [(k, v)]
  | (k', v') :: rest => if k' = k then (k, v) :: rest else (k', v') :: alSet k v rest

/-- Rule map update, same semantics. -/
def alSetR (k : String) (r : Rule) : List (String × Rule) → List (String × Rule)
  | [] => [(k, r)]
  | (k', r') :: rest => if k' = k then (k, r) :: rest else (k', r') :: alSetR k r rest

/-- Replace an existing store entry in place; an absent key is left
alone.  This models Python object mutation of a fetched child (the
locked-key merge and the parser both mutate objects fetched from the
store; a child fetched from a rule default would be mutated without ever
entering the store). -/
def alReplace (k : String) (v : Value) : List (String × Value) → List (String × Value)
  | [] => []
  | (k', v') :: rest => if k' = k then (k, v) :: rest else (k', v') :: alReplace k v rest

def alHas (k : String) (l : List (String × Value)) : Bool :=
  (l.lookup k).isSome

def alHasR (k : String) (l : List (String × Rule)) : Bool :=
  (l.lookup k).isSome

/-! ## Numeric string helpers -/

/-- Value of one digit character in the given base, as Python int(s, base)
accepts it (0-9, a-z, A-Z). -/
def digitVal (base : Nat) (c : Char) : Option Nat :=
  let v : Option Nat :=
    if '0' ≤ c ∧ c ≤ '9' then some (c.toNat - 48)
    else if 'a' ≤ c ∧ c ≤ 'z' then some (c.toNat - 87)
    else if 'A' ≤ c ∧ c ≤ 'Z' then some (c.toNat - 55)
    else none
  match v with
  | some n => if n < base then some n else none
  | none => none

/-- Digits after the first one: Python permits a single underscore between
two digits (PEP 515), never doubled, leading or trailing. -/
def digitsVal (base : Nat) : List Char → Nat → Option Nat
  | [], acc => some acc
  | c :: rest, acc =>
    if c = '_' then
      match rest with
      | c2 :: rest2 =>
        match digitVal base c2 with
        | some d => digitsVal base rest2 (acc * base + d)
        | none => none
      | [] => none
    else
      match digitVal base c with
      | some d => digitsVal base rest (acc * base + d)
      | none => none

def pyIntCore (base : Nat) : List Char → Option Nat
  | c :: rest =>
    match digitVal base c with
    | some d => digitsVal base rest d
    | none => none
  | [] => none

def isPySpace (c : Char) : Bool :=
  c = ' ' ∨ c = '\t' ∨ c = '\n' ∨ c = '\r'

def stripWS (cs : List Char) : List Char :=
  ((cs.dropWhile isPySpace).reverse.dropWhile isPySpace).reverse

/-- str.lower as the engine applies it to keys (ASCII). -/
def charLower (c : Char) : Char :=
  if 65 ≤ c.toNat ∧ c.toNat ≤ 90 then Char.ofNat (c.toNat + 32) else c

def pyLower (s : String) : String :=
  String.mk (s.data.map charLower)

/-- Python str.split(sep) for a one-character separator. -/
def splitChars (sep : Char) : List Char → List String
  | [] => [""]
  | c :: rest =>
    match splitChars sep rest with
    | [] => [""]
    | r :: rs => if c = sep then "" :: r :: rs else String.mk (c :: r.data) :: rs

def splitOnChar (sep : Char) (s : String) : List String :=
  splitChars sep s.data

def strContains (s : String) (c : Char) : Bool :=
  s.data.contains c

/-- Python string comparison: code point lexicographic (strict). -/
def strLtChars : List Char → List Char → Bool
  | [], [] => false
  | [], _ :: _ => true
  | _ :: _, [] => false
  | a :: as, b :: bs =>
    if a.toNat < b.toNat then true
    else if b.toNat < a.toNat then false
    else strLtChars as bs

/-- Python string comparison: code point lexicographic (non-strict). -/
def strLeChars : List Char → List Char → Bool
  | [], _ => true
  | _ :: _, [] => false
  | a :: as, b :: bs =>
    if a.toNat < b.toNat then true
    else if b.toNat < a.toNat then false
    else strLeChars as bs

/-- Python int(s, base) on a string: optional surrounding whitespace,
optional sign, then base digits with PEP 515 underscores. -/
def pyIntOfStr (base : Nat) (s : String) : Option Int :=
  match stripWS s.data with
  | '+' :: rest => (pyIntCore base rest).map Int.ofNat
  | '-' :: rest => (pyIntCore base rest).map (fun n => -(n : Int))
  | cs => (pyIntCore base cs).map Int.ofNat

/-- Decimal digits of a natural number, most significant first.  The aux
recursion is fuelled (n + 1 steps always suffice) so terms reduce in the
kernel. -/
def natDecCharsAux : Nat → Nat → List Char
  | 0, _ => []
  | fuel + 1, n =>
    if n < 10 then [Char.ofNat (48 + n)]
    else natDecCharsAux fuel (n / 10) ++ [Char.ofNat (48 + n % 10)]

def natDecChars (n : Nat) : List Char :=
  natDecCharsAux (n + 1) n

def natDec (n : Nat) : String :=
  String.mk (natDecChars n)

/-- Python str of an int. -/
def intDec (n : Int) : String :=
  if n < 0 then String.mk ('-' :: natDecChars n.natAbs) else natDec n.natAbs

/-- Modelled from the spec: the b36 helper of mailpile.util (missing from
src), which renders a nonnegative integer in base 36; the engine always
lowercases its output, so we produce lowercase digits directly. -/
def b36digit (n : Nat) : Char :=
  if n < 10 then Char.ofNat (48 + n) else Char.ofNat (87 + n)

def natB36CharsAux : Nat → Nat → List Char
  | 0, _ => []
  | fuel + 1, n =>
    if n < 36 then [b36digit n]
    else natB36CharsAux fuel (n / 36) ++ [b36digit (n % 36)]

def natB36Chars (n : Nat) : List Char :=
  natB36CharsAux (n + 1) n

def b36 (n : Nat) : String :=
  String.mk (natB36Chars n)

/-! ## Keys -/

/-- A key as passed to container item access: a Python str or int. -/
inductive PKey where
  | ks (s : String)
  | ki (n : Int)

/-- ConfigList.__fixkey__: a string that parses as base 36 becomes an int,
anything else is left alone. -/
def fixkeyL : PKey → PKey
  | .ks s =>
    match pyIntOfStr 36 s with
    | some n => .ki n
    | none => .ks s
  | .ki n => .ki n

/-- Python list subscripting with negative indexing. -/
def pyListGet (items : List Value) (n : Int) : Except PyErr Value :=
  if h : 0 ≤ n ∧ n < items.length then
    .ok (items.get ⟨n.toNat, by omega⟩)
  else if h' : n < 0 ∧ 0 ≤ n + items.length then
    .ok (items.get ⟨(n + items.length).toNat, by omega⟩)
  else
    .error (.indexError "list index out of range")

/-- Python list element replacement with negative indexing. -/
def pyListSet (items : List Value) (n : Int) (v : Value) :
    Except PyErr (List Value) :=
  if 0 ≤ n ∧ n < items.length then
    .ok (items.set n.toNat v)
  else if n < 0 ∧ 0 ≤ n + items.length then
    .ok (items.set (n + items.length).toNat v)
  else
    .error (.indexError "list assignment index out of range")

/-- ConfigList.get: list.__getitem__ on the fixed key, IndexError mapped to
the caller-supplied default; a key that is not int-like raises TypeError,
which get does not catch. -/
def listGet (l : CList) (key : PKey) (dfltV : Value) : Except PyErr Value :=
  match fixkeyL key with
  | .ki n =>
    match pyListGet l.items n with
    | .ok v => .ok v
    | .error (.indexError _) => .ok dfltV
    | .error e => .error e
  | .ks _ => .error (.typeError "list indices must be integers")

/-- ConfigList.__getitem__: list.__getitem__ on the fixed key. -/
def listGetItem (l : CList) (key : PKey) : Except PyErr Value :=
  match fixkeyL key with
  | .ki n => pyListGet l.items n
  | .ks _ => .error (.typeError "list indices must be integers")

/-- ConfigList.fmt_key: base-36 render of the fixed key, zero-padded to
width 4.  A key that does not fix to an int makes b36 raise. -/
def fmtKeyL (key : PKey) : Except PyErr String :=
  match fixkeyL key with
  | .ki n =>
    if n < 0 then .error (.typeError "b36 of negative int")
    else
      let f := b36 n.toNat
      .ok (if f.length < 4 then (String.mk (List.replicate (4 - f.length) '0')) ++ f else f)
  | .ks _ => .error (.typeError "b36 of non-int")

/-- ConfigList.keys / iterkeys: the formatted positions 0000, 0001, ... -/
def listKeys (l : CList) : List String :=
  (List.range l.items.length).map (fun i =>
    let f := b36 i
    if f.length < 4 then (String.mk (List.replicate (4 - f.length) '0')) ++ f else f)

/-- _RuledContainer.get on a dict (always returns, never raises): the
stored value when present, else the rule default when the caller default is
None, else the caller default. -/
def dictGet (d : CDict) (key : String) (dfltV : Value) : Value :=
  let k := pyLower key
  match d.store.lookup k with
  | some v => v
  | none =>
    match dfltV with
    | .vNil =>
      match d.rules.lookup k with
      | some r => r.dflt.toValue
      | none => .vNil
    | _ => dfltV

/-- _RuledContainer.__getitem__ on a dict: goes through get when the fixed
key has a concrete rule or a wildcard exists, else plain dict lookup
(KeyError on a miss). -/
def getItemD (d : CDict) (key : String) : Except PyErr Value :=
  let k := pyLower key
  if alHasR k d.rules ∨ alHasR "_any" d.rules then
    .ok (dictGet d key .vNil)
  else
    match d.store.lookup k with
    | some v => .ok v
    | none => .error (.keyError k)

/-- _RuledContainer.key_types: the _types tags of the rule for this key,
falling back to the wildcard rule; no key normalisation is applied. -/
def keyTypesOf (rules : List (String × Rule)) (key : String) : List String :=
  match rules.lookup key with
  | some r => r.types
  | none =>
    match rules.lookup "_any" with
    | some r => r.types
    | none => []

/-- The lazy checker substitution in get_rule: a dict-of-rules checker is
replaced by a _MakeCheck ConfigDict class named container/key. -/
def lazyRule (cname keyRepr : String) (r : Rule) : Rule :=
  match r.check with
  | .nestedRules rs =>
    Rule.mk r.comment (.mkDict (cname ++ "/" ++ keyRepr) r.comment rs) r.dflt r.types
  | _ => r

/-- _RuledContainer.get_rule on a dict. -/
def getRuleD (d : CDict) (key : String) : Except PyErr Rule :=
  let k := pyLower key
  match d.rules.lookup k with
  | some r => .ok (lazyRule d.name k r)
  | none =>
    match d.rules.lookup "_any" with
    | some r => .ok (lazyRule d.name k r)
    | none => .error (.invalidKey ("Invalid key for " ++ d.name ++ ": " ++ k))

/-- _RuledContainer.get_rule on a list: the fixed key (an int for every
base-36-looking string) never matches the string-keyed rule map, so the
wildcard governs everything. -/
def getRuleL (l : CList) (key : PKey) : Except PyErr Rule :=
  let fk := fixkeyL key
  let keyRepr := match fk with | .ks s => s | .ki n => intDec n
  let direct := match fk with | .ks s => l.rules.lookup s | .ki _ => none
  match direct with
  | some r => .ok (lazyRule l.name keyRepr r)
  | none =>
    match l.rules.lookup "_any" with
    | some r => .ok (lazyRule l.name keyRepr r)
    | none => .error (.invalidKey ("Invalid key for " ++ l.name ++ ": " ++ keyRepr))

/-! ## Python equality and str -/

/-- isinstance(v, dict): plain dicts and ConfigDicts. -/
def isMapV : Value → Bool
  | .vMap _ => true
  | .vDict _ => true
  | _ => false

/-- The key/value entries of a dict-like value. -/
def entriesOfV : Value → Option (List (String × Value))
  | .vMap es => some es
  | .vDict d => some d.store
  | _ => none

/-- isinstance(v, (list, tuple)). -/
def isArrV : Value → Bool
  | .vArr _ => true
  | .vList _ => true
  | _ => false

/-- The element sequence of a list-like value. -/
def itemsOfV : Value → Option (List Value)
  | .vArr vs => some vs
  | .vList l => some l.items
  | _ => none

mutual

/-- Python == on engine values: numeric cross-equality of bool and int,
order-insensitive dict comparison, elementwise list comparison.  Fuel
bounds the depth; every use inside the engine passes the ambient fuel. -/
def pyEqV : Nat → Value → Value → Bool
  | 0, _, _ => false
  | fuel + 1, a, b =>
    match entriesOfV a, entriesOfV b with
    | some ea, some eb => pyEqEntries fuel ea eb
    | some _, none => false
    | none, some _ => false
    | none, none =>
      match itemsOfV a, itemsOfV b with
      | some xa, some xb => pyEqItems fuel xa xb
      | some _, none => false
      | none, some _ => false
      | none, none =>
        match a, b with
        | .vNil, .vNil => true
        | .vInt m, .vInt n => m == n
        | .vBool x, .vBool y => x == y
        | .vInt m, .vBool y => m == (if y then (1 : Int) else 0)
        | .vBool x, .vInt n => (if x then (1 : Int) else 0) == n
        | .vStr s, .vStr t => s == t
        | _, _ => false

def pyEqEntries : Nat → List (String × Value) → List (String × Value) → Bool
  | 0, _, _ => false
  | fuel + 1, ea, eb =>
    ea.length == eb.length &&
    ea.all (fun kv =>
      match eb.lookup kv.1 with
      | some w => pyEqV fuel kv.2 w
      | none => false)

def pyEqItems : Nat → List Value → List Value → Bool
  | 0, _, _ => false
  | fuel + 1, xa, xb =>
    xa.length == xb.length &&
    (List.zip xa xb).all (fun p => pyEqV fuel p.1 p.2)

end

/-- Python membership v in opts, as the enum checker uses it. -/
def pyMem (fuel : Nat) (v : Value) (opts : List Value) : Bool :=
  opts.any (fun w => pyEqV fuel v w)

/-- Python str of the scalar values the export path renders.  Container
reprs are not modelled (no claim evaluates them); they get a marker. -/
def pyStr : Value → String
  | .vNil => "None"
  | .vInt n => intDec n
  | .vBool b => if b then "True" else "False"
  | .vStr s => s
  | .vMap _ => "<dict repr unmodelled>"
  | .vArr _ => "<list repr unmodelled>"
  | .vDict _ => "<ConfigDict repr unmodelled>"
  | .vList _ => "<ConfigList repr unmodelled>"

/-- Modelled from the spec: the key hygiene test of add_rule, which uses
CleanText with the NONVARS banned set from the missing mailpile.util; per
the spec a key must be a lowercase identifier-safe name. -/
def keyClean (s : String) : Bool :=
  s ≠ "" && s.data.all (fun c =>
    (97 ≤ c.toNat ∧ c.toNat ≤ 122) ∨ (48 ≤ c.toNat ∧ c.toNat ≤ 57) ∨ c.toNat = 95)

/-- The attribute surface real_hasattr sees on every ruled container while
set_rules runs: the methods the RuledContainer factory body defines, and
the instance attributes __init__ binds before it calls set_rules (_name,
_comment, _write_watcher, _key, _rules_source, _changed, rules; _magic is
bound only after set_rules returns, so it is not reserved during schema
installation).  Class attributes in upper case (_NAME, _RULES, ...) never
pass
the key hygiene test, so they need no entry.  Identifier-shaped
double-underscore attributes that CPython itself supplies beyond the ones
defined in the file are omitted; no schema in this development declares
such keys. -/
def reservedAttrsCommon : List String :=
  ["_default_write_watcher", "__init__", "__str__", "__unicode__",
   "as_config_bytes", "key_types", "as_config", "reset", "set_rules",
   "add_rule", "__fixkey__", "fmt_key", "get_rule", "ignored_keys", "walk",
   "get", "__getitem__", "real_getattr", "real_hasattr", "real_setattr",
   "__getattr__", "__setattr__", "__passkey__", "__passkey_recurse__",
   "__createkey_and_setitem__", "__setitem__", "extend", "__iadd__",
   "_name", "_comment", "_write_watcher", "_key", "_rules_source",
   "_changed", "rules"]

/-- real_hasattr surface of a ConfigDict: the shared names plus the
ConfigDict methods and the built-in dict methods. -/
def reservedAttrsD : List String :=
  reservedAttrsCommon ++
  ["all_keys", "append", "update", "parse_config",
   "clear", "copy", "fromkeys", "items", "keys", "pop", "popitem",
   "setdefault", "values"]

/-- real_hasattr surface of a ConfigList: the shared names plus the
ConfigList methods and the built-in list methods. -/
def reservedAttrsL : List String :=
  reservedAttrsCommon ++
  ["append", "iterkeys", "items", "keys", "all_keys", "values", "update",
   "clear", "copy", "count", "index", "insert", "pop", "remove",
   "reverse", "sort"]

/-! ## Field update helpers (the inductives are mutual, so no structure
update syntax is available) -/

def CDict.setStore : CDict → List (String × Value) → CDict
  | .mk n c sb ch rs _, st => .mk n c sb ch rs st

def CDict.setRules : CDict → List (String × Rule) → CDict
  | .mk n c sb ch _ st, rs => .mk n c sb ch rs st

def CDict.setChanged : CDict → Bool → CDict
  | .mk n c sb _ rs st, ch => .mk n c sb ch rs st

def CDict.setName : CDict → String → CDict
  | .mk _ c sb ch rs st, n => .mk n c sb ch rs st

def CList.setItems : CList → List Value → CList
  | .mk n c sb ch rs _, it => .mk n c sb ch rs it

def CList.setRules : CList → List (String × Rule) → CList
  | .mk n c sb ch _ it, rs => .mk n c sb ch rs it

def CList.setChanged : CList → Bool → CList
  | .mk n c sb _ rs it, ch => .mk n c sb ch rs it

def CList.setName : CList → String → CList
  | .mk _ c sb ch rs it, n => .mk n c sb ch rs it

/-! ## Checker resolution and scalar coercions -/

/-- RULE_CHECK_MAP resolution, .get(check, check): symbolic names become
registered checkers, anything unregistered is used verbatim.  Registry
entries whose checker lives in the missing validators module (file, dir,
url, ...) are left symbolic; no claim uses them. -/
def resolveCheck : Checker → Checker
  | .cSym s =>
    match s with
    | "bool" => .co .cBool
    | "int" => .co .cInt
    | "timestamp" => .co .cInt
    | "str" => .co .cStr
    | "unicode" => .co .cStr
    | "multiline" => .co .cStr
    | "ignore" => .co .cIgnore
    | "false" => .cFalse
    | "False" => .cFalse
    | "true" => .cTrue
    | "True" => .cTrue
    | _ => .cSym s
  | c => c

/-- Python int(value): identity on ints, bools are 0/1, strings are parsed
in base 10 (ValueError on junk), anything else is a TypeError; int() with
no argument (value None) is 0. -/
def pyIntCoerce : Value → Except PyErr Int
  | .vNil => .ok 0
  | .vInt n => .ok n
  | .vBool b => .ok (if b then 1 else 0)
  | .vStr s =>
    match pyIntOfStr 10 s with
    | some n => .ok n
    | none => .error (.valueError ("invalid literal for int: " ++ s))
  | _ => .error (.typeError "int() argument must be a string or a number")

/-- Modelled from the spec: validators.BoolCheck (module missing from
src).  Setting a boolean-typed key to "true"/"false"/"True"/"False" yields
the corresponding boolean, anything else fails; a bool passes through.
Called with no argument (default instantiation) it is a TypeError. -/
def boolCheck : Value → Except PyErr Value
  | .vNil => .error (.typeError "BoolCheck missing argument")
  | .vBool b => .ok (.vBool b)
  | .vStr s =>
    if s = "true" ∨ s = "True" then .ok (.vBool true)
    else if s = "false" ∨ s = "False" then .ok (.vBool false)
    else .error (.valueError ("invalid boolean: " ++ s))
  | _ => .error (.valueError "invalid boolean")

/-- list(v): the Python list constructor as ConfigList.update applies it
to each argument. -/
def toPyList : Value → Except PyErr (List Value)
  | .vArr vs => .ok vs
  | .vList l => .ok l.items
  | .vMap es => .ok (es.map (fun kv => .vStr kv.1))
  | .vStr s => .ok (s.data.map (fun c => .vStr (String.mk [c])))
  | _ => .error (.typeError "object is not iterable")

/-! ## Key/path propagation (__passkey__ and __passkey_recurse__) -/

/-- __passkey__ in a dict parent: a container value stored under key gets
its name re-derived from the parent name. -/
def passkeyOneD (pname key : String) : Value → Value
  | .vDict d => .vDict (d.setName (pname ++ "/" ++ key))
  | .vList l => .vList (l.setName (pname ++ "/" ++ key))
  | v => v

/-- __passkey__ in a list parent: the position is rendered in base 36
first.  (A negative position would hand b36 a negative int, a corner the
model leaves as the identity.) -/
def passkeyOneL (pname : String) (n : Int) : Value → Value :=
  if n < 0 then id else passkeyOneD pname (b36 n.toNat)

/-- __passkey_recurse__: after insertion the stored value renames its own
immediate children (one level, as the source does). -/
def passkeyRecurse : Value → Value
  | .vDict d =>
    .vDict (d.setStore (d.store.map (fun kv => (kv.1, passkeyOneD d.name kv.1 kv.2))))
  | .vList l =>
    .vList (l.setItems (l.items.enum.map (fun iv => passkeyOneL l.name iv.1 iv.2)))
  | v => v

/-- The tail of every successful ruled write: watcher, passkey, store,
passkey_recurse.  extraSig carries watcher signals already emitted by
nested construction during coercion; both it and the own watcher signal
are absorbed here when the container is selfBound (the watcher is a method
bound to the standalone-constructed root). -/
def writeStoreD (d : CDict) (k : String) (v : Value) (extraSig : Bool) :
    CDict × Bool :=
  let v' := passkeyRecurse (passkeyOneD d.name k v)
  let st := alSet k v' d.store
  if d.selfBound then ((d.setStore st).setChanged true, false)
  else (d.setStore st, true || extraSig)

/-- Signal absorption for paths that skip the watcher (the locked-dict
merge): bubbling signals still set the changed flag of a selfBound
container they pass through. -/
def absorbD (d : CDict) (sig : Bool) : CDict × Bool :=
  if sig && d.selfBound then (d.setChanged true, false) else (d, sig)

def absorbL (l : CList) (sig : Bool) : CList × Bool :=
  if sig && l.selfBound then (l.setChanged true, false) else (l, sig)

/-- The error classes the coercion try/except of __setitem__ rewraps as a
plain ValueError: ValueError, TypeError and their subclasses
(InvalidKeyError and ConfigValueError are ValueError subclasses, but
ConfigValueError is re-raised unchanged by its own clause). -/
def wrappedBySet : PyErr → Bool
  | .valueError _ => true
  | .invalidKey _ => true
  | .typeError _ => true
  | _ => false

/-- The comment slot a _MakeCheck ConfigDict receives in the wildcard
branch of add_rule: the source passes the checker object itself there (a
quirk); containers render it truthy, so the model uses a fixed marker
string. -/
def chkComment (_ : Checker) : String :=
  "<checker-as-comment>"

/-! ## The engine core

All mutually recursive operations take an explicit fuel argument; fuel 0
yields the artificial fuelOut error.  Every function mirrors one method of
the source: setItemD / setItemL are _RuledContainer.__setitem__ for the
two container kinds, coerceVal is the checker(value) call, newDictFrom /
newListFrom are instantiation of a _MakeCheck class or ConfigDict /
ConfigList on a value, dictFromRules / listFromRules are __init__ +
set_rules, addRuleD / addRuleL are add_rule, dictUpdateMany /
listUpdateMany are the two update methods, createKeySetL is
ConfigList.__createkey_and_setitem__ and appendL is ConfigList.append.
The Bool paired with each result is the pending write-watcher signal (see
the module comment). -/

mutual

def setItemD : Nat → CDict → String → Value → Except PyErr (CDict × Bool)
  | 0, _, _, _ => .error .fuelOut
  | fuel + 1, d, key, v => do
    let k := pyLower key
    let rule ← getRuleD d key
    match rule.check with
    | .cTrue => .ok (writeStoreD d k v false)
    | .cFalse => do
      let stored ← getItemD d k
      if isMapV v && isMapV stored then do
        let es := (entriesOfV v).getD []
        let (stored', sig) ← mergeStored fuel stored es
        .ok (absorbD (d.setStore (alReplace k stored' d.store)) sig)
      else
        .error (.configValue ("Modifying " ++ d.name ++ "/" ++ k ++ " is not allowed"))
    | .enum opts =>
      if pyMem fuel v opts then .ok (writeStoreD d k v false)
      else .error (.configValue ("Invalid value for " ++ d.name ++ "/" ++ k ++ ": " ++ pyStr v))
    | .cSym _ => .error (.unknownConstraint ("Unknown constraint for " ++ d.name ++ "/" ++ k))
    | .nestedRules _ => .error (.unknownConstraint ("Unknown constraint for " ++ d.name ++ "/" ++ k))
    | chk =>
      match coerceVal fuel chk v with
      | .error .ignoreValue => .ok (d, false)
      | .error (.configValue m) => .error (.configValue m)
      | .error e =>
        if wrappedBySet e then
          .error (.valueError ("Invalid value for " ++ d.name ++ "/" ++ k ++ ": " ++ pyStr v))
        else .error e
      | .ok (v', sigCo) => .ok (writeStoreD d k v' sigCo)

def setItemL : Nat → CList → PKey → Value → Except PyErr (CList × Bool)
  | 0, _, _, _ => .error .fuelOut
  | fuel + 1, l, key, v => do
    let fk := fixkeyL key
    let keyRepr := match fk with | .ks s => s | .ki n => intDec n
    let rule ← getRuleL l key
    match rule.check with
    | .cTrue => writeStoreL fuel l fk v false
    | .cFalse => do
      let stored ← listGetItem l fk
      if isMapV v && isMapV stored then do
        let es := (entriesOfV v).getD []
        let (stored', sig) ← mergeStored fuel stored es
        match fk with
        | .ki n => do
          let items' ← pyListSet l.items n stored'
          .ok (absorbL (l.setItems items') sig)
        | .ks _ => .error (.typeError "list indices must be integers")
      else
        .error (.configValue ("Modifying " ++ l.name ++ "/" ++ keyRepr ++ " is not allowed"))
    | .enum opts =>
      if pyMem fuel v opts then writeStoreL fuel l fk v false
      else .error (.configValue ("Invalid value for " ++ l.name ++ "/" ++ keyRepr ++ ": " ++ pyStr v))
    | .cSym _ => .error (.unknownConstraint ("Unknown constraint for " ++ l.name ++ "/" ++ keyRepr))
    | .nestedRules _ => .error (.unknownConstraint ("Unknown constraint for " ++ l.name ++ "/" ++ keyRepr))
    | chk =>
      match coerceVal fuel chk v with
      | .error .ignoreValue => .ok (l, false)
      | .error (.configValue m) => .error (.configValue m)
      | .error e =>
        if wrappedBySet e then
          .error (.valueError ("Invalid value for " ++ l.name ++ "/" ++ keyRepr ++ ": " ++ pyStr v))
        else .error e
      | .ok (v', sigCo) => writeStoreL fuel l fk v' sigCo

/-- The write tail of setItemL: watcher, passkey (base-36 position name),
then __createkey_and_setitem__, with signal absorption. -/
def writeStoreL : Nat → CList → PKey → Value → Bool → Except PyErr (CList × Bool)
  | 0, _, _, _, _ => .error .fuelOut
  | fuel + 1, l, fk, v, extraSig =>
    match fk with
    | .ki n => do
      let v' := passkeyRecurse (passkeyOneL l.name n v)
      let (l', sigC) ← createKeySetL fuel l n v'
      .ok (absorbL l' (true || extraSig || sigC))
    | .ks _ => .error (.typeError "list indices must be integers")

def createKeySetL : Nat → CList → Int → Value → Except PyErr (CList × Bool)
  | 0, _, _, _ => .error .fuelOut
  | fuel + 1, l, key, v =>
    if key > l.items.length then
      match l.rules.lookup "_any" with
      | none => .error (.keyError "_any")
      | some r =>
        match appendL fuel l r.dflt.toValue with
        | (.ok _, l', sig1) => do
          let (l'', sig2) ← createKeySetL fuel l' key v
          .ok (l'', sig1 || sig2)
        | (.error e, _, _) => .error e
    else if key = l.items.length then
      match appendL fuel l v with
      | (.ok _, l', sig) => .ok (l', sig)
      | (.error e, _, _) => .error e
    else do
      let items' ← pyListSet l.items key v
      .ok (l.setItems items', false)

/-- ConfigList.append: list.append(self, None) plants a raw placeholder,
then the ruled assignment self[len(self) - 1] = value runs.  If it raises,
the except clause attempts the rollback self[len(self) - 1:] = [], but that
slice assignment re-enters the ruled __setitem__, whose __fixkey__ leaves a
slice untouched and whose get_rule then calls self.rules.get(slice): under
Python 3 hashing the slice raises TypeError (unhashable type), which
propagates in place of the original exception, so the placeholder None is
never removed.  (From Python 3.12 slices hash, and instead the _any
checker coercion of [] raises first; either way the rollback never
completes and the placeholder stays.)  The returned list is the grown list
with the placeholder; per the module conventions the partial effects of
the failed inner assignment are not tracked. -/
def appendL : Nat → CList → Value → (Except PyErr String) × CList × Bool
  | 0, l, _ => (.error .fuelOut, l, false)
  | fuel + 1, l, v =>
    let grown := l.setItems (l.items ++ [.vNil])
    match setItemL fuel grown (.ki (l.items.length : Int)) v with
    | .ok (l', sig) => (.ok (b36 l.items.length), l', sig)
    | .error _ => (.error (.typeError "unhashable type: slice"), grown, false)

/-- checker(value), or checker() when the value is None. -/
def coerceVal : Nat → Checker → Value → Except PyErr (Value × Bool)
  | 0, _, _ => .error .fuelOut
  | fuel + 1, chk, v =>
    match chk with
    | .co .cInt => (pyIntCoerce v).map (fun n => (.vInt n, false))
    | .co .cStr => .ok (.vStr (match v with | .vNil => "" | w => pyStr w), false)
    | .co .cBool => (boolCheck v).map (fun w => (w, false))
    | .co .cIgnore => .error .ignoreValue
    | .mkDict nm cm rs => (newDictFrom fuel nm cm rs v).map (fun dc => (.vDict dc.1, dc.2))
    | .mkList nm cm rs => (newListFrom fuel nm cm rs v).map (fun lc => (.vList lc.1, lc.2))
    | _ => .error (.typeError "object is not callable")

def newDictFrom : Nat → String → String → List (String × Rule) → Value →
    Except PyErr (CDict × Bool)
  | 0, _, _, _, _ => .error .fuelOut
  | fuel + 1, nm, cm, rs, v => do
    let base ← dictFromRules fuel nm cm false rs
    match v with
    | .vNil => .ok (base, false)
    | w =>
      match entriesOfV w with
      | some es => dictUpdateMany fuel base es
      | none => .error (.typeError "update expects a mapping or pair sequence")

def newListFrom : Nat → String → String → List (String × Rule) → Value →
    Except PyErr (CList × Bool)
  | 0, _, _, _, _ => .error .fuelOut
  | fuel + 1, nm, cm, rs, v => do
    let base ← listFromRules fuel nm cm false rs
    match v with
    | .vNil => .ok (base, false)
    | w => do
      let xs ← toPyList w
      listUpdateMany fuel base xs

def dictFromRules : Nat → String → String → Bool → List (String × Rule) →
    Except PyErr CDict
  | 0, _, _, _, _ => .error .fuelOut
  | fuel + 1, nm, cm, sb, rs => addRulesD fuel (CDict.mk nm cm sb false [] []) rs

def addRulesD : Nat → CDict → List (String × Rule) → Except PyErr CDict
  | 0, _, _ => .error .fuelOut
  | fuel + 1, d, [] => .ok d
  | fuel + 1, d, (k, r) :: rest => do
    let d' ← addRuleD fuel d k r
    addRulesD fuel d' rest

/-- add_rule on a dict container.  The guard rejects a key that fails the
hygiene test or that real_hasattr finds on the instance (an existing
method or bound attribute; see reservedAttrsD). -/
def addRuleD : Nat → CDict → String → Rule → Except PyErr CDict
  | 0, _, _, _ => .error .fuelOut
  | fuel + 1, d, key, rule =>
    if ¬ keyClean key ∨ reservedAttrsD.contains key then
      .error (.typeError ("add_rule: Bad key or rule: " ++ key))
    else
      let check0 := resolveCheck rule.check
      let rule1 := Rule.mk rule.comment check0 rule.dflt rule.types
      let d1 := d.setRules (alSetR key rule1 d.rules)
      let name := d.name ++ "/" ++ key
      match check0, rule.dflt with
      | .nestedRules _, .v val =>
        if val matches .vNil then .ok d1
        else .error (.typeError ("Only lists or dictionaries can contain dictionary values (key " ++ name ++ ")."))
      | chk, .dmap rs0 =>
        if chk matches .cFalse then do
          let sub ← dictFromRules fuel name rule.comment false rs0
          .ok (d1.setStore (alSet key (.vDict sub) d1.store))
        else if rs0.isEmpty then do
          let subRule := [("_any", Rule.mk rule.comment chk (.v .vNil) [])]
          let cm := chkComment chk
          let sub ← dictFromRules fuel name cm false subRule
          let rule2 := Rule.mk rule.comment (.mkDict name cm subRule) rule.dflt rule.types
          .ok ((d1.setRules (alSetR key rule2 d1.rules)).setStore
                (alSet key (.vDict sub) d1.store))
        else .error (.configValue ("Subsections must be immutable (key " ++ name ++ ")."))
      | chk, .dlist vs =>
        if vs.isEmpty then do
          let subRule := [("_any", Rule.mk rule.comment chk (.v .vNil) [])]
          let sub ← listFromRules fuel name rule.comment false subRule
          let rule2 := Rule.mk rule.comment (.mkList name rule.comment subRule) rule.dflt rule.types
          .ok ((d1.setRules (alSetR key rule2 d1.rules)).setStore
                (alSet key (.vList sub) d1.store))
        else .error (.configValue ("Lists cannot have default values (key " ++ name ++ ")."))
      | _, .v val =>
        match val with
        | .vNil => .ok d1
        | .vInt _ => .ok d1
        | .vBool _ => .ok d1
        | .vStr _ => .ok d1
        | _ => .error (.typeError ("Invalid type for key " ++ name))

def listFromRules : Nat → String → String → Bool → List (String × Rule) →
    Except PyErr CList
  | 0, _, _, _, _ => .error .fuelOut
  | fuel + 1, nm, cm, sb, rs => addRulesL fuel (CList.mk nm cm sb false [] []) rs

def addRulesL : Nat → CList → List (String × Rule) → Except PyErr CList
  | 0, _, _ => .error .fuelOut
  | fuel + 1, l, [] => .ok l
  | fuel + 1, l, (k, r) :: rest => do
    let l' ← addRuleL fuel l k r
    addRulesL fuel l' rest

/-- add_rule on a list container: identical to the dict variant except
that the real_hasattr surface is the list one and that storing a
manufactured sub-container under a string key hits list.__setitem__ and
raises. -/
def addRuleL : Nat → CList → String → Rule → Except PyErr CList
  | 0, _, _, _ => .error .fuelOut
  | _ + 1, l, key, rule =>
    if ¬ keyClean key ∨ reservedAttrsL.contains key then
      .error (.typeError ("add_rule: Bad key or rule: " ++ key))
    else
      let check0 := resolveCheck rule.check
      let rule1 := Rule.mk rule.comment check0 rule.dflt rule.types
      let l1 := l.setRules (alSetR key rule1 l.rules)
      let name := l.name ++ "/" ++ key
      match check0, rule.dflt with
      | .nestedRules _, .v val =>
        if val matches .vNil then .ok l1
        else .error (.typeError ("Only lists or dictionaries can contain dictionary values (key " ++ name ++ ")."))
      | _, .dmap _ => .error (.typeError "list indices must be integers")
      | _, .dlist vs =>
        if vs.isEmpty then .error (.typeError "list indices must be integers")
        else .error (.configValue ("Lists cannot have default values (key " ++ name ++ ")."))
      | _, .v val =>
        match val with
        | .vNil => .ok l1
        | .vInt _ => .ok l1
        | .vBool _ => .ok l1
        | .vStr _ => .ok l1
        | _ => .error (.typeError ("Invalid type for key " ++ name))

def dictUpdateMany : Nat → CDict → List (String × Value) → Except PyErr (CDict × Bool)
  | 0, _, _ => .error .fuelOut
  | _ + 1, d, [] => .ok (d, false)
  | fuel + 1, d, (k, v) :: rest => do
    let (d', sig1) ← setItemD fuel d k v
    let (d'', sig2) ← dictUpdateMany fuel d' rest
    .ok (d'', sig1 || sig2)

/-- ConfigList.update on one source list: positions that exist are
assigned, the overflow is appended (append errors propagate). -/
def listUpdateMany : Nat → CList → List Value → Except PyErr (CList × Bool)
  | 0, _, _ => .error .fuelOut
  | fuel + 1, l, xs => listUpdatePos fuel l xs 0

def listUpdatePos : Nat → CList → List Value → Nat → Except PyErr (CList × Bool)
  | 0, _, _, _ => .error .fuelOut
  | fuel + 1, l, xs, i =>
    if h : i < l.items.length then
      match xs.get? i with
      | none => .error (.indexError "list index out of range")
      | some x => do
        let (l', sig1) ← setItemL fuel l (.ki (i : Int)) x
        let (l'', sig2) ← listUpdatePos fuel l' xs (i + 1)
        .ok (l'', sig1 || sig2)
    else
      match xs.get? i with
      | none => .ok (l, false)
      | some x =>
        match appendL fuel l x with
        | (.ok _, l', sig1) => do
          let (l'', sig2) ← listUpdatePos fuel l' xs (i + 1)
          .ok (l'', sig1 || sig2)
        | (.error e, _, _) => .error e

/-- The locked-checker merge loop: for k, v in value.items():
self[key][k] = v.  A governed stored dict takes each entry through its own
__setitem__; a plain stored dict is raw assignment. -/
def mergeStored : Nat → Value → List (String × Value) → Except PyErr (Value × Bool)
  | 0, _, _ => .error .fuelOut
  | _ + 1, stored, [] => .ok (stored, false)
  | fuel + 1, stored, (k, v) :: rest =>
    match stored with
    | .vDict sub => do
      let (sub', sig1) ← setItemD fuel sub k v
      let (res, sig2) ← mergeStored fuel (.vDict sub') rest
      .ok (res, sig1 || sig2)
    | .vMap es => mergeStored fuel (.vMap (alSet k v es)) rest
    | _ => .error (.typeError "object does not support item assignment")

end

/-! ## reset -/

/-- ConfigList.reset: rules are discarded; the data-clearing branch is
commented out in the source (TODO), so items survive even when data is
requested. -/
def resetL (l : CList) (rules _data : Bool) : CList :=
  if rules then l.setRules [] else l

mutual

/-- ConfigDict.reset: optionally drop the own rules; with data, the source
iterates `for key in self.keys()` and calls dict.__delitem__ on every
stored value that has no reset method.  Under Python 3 self.keys() is a
live view, and the dict iterator raises RuntimeError (dictionary changed
size during iteration) at the very next advance after any deletion — even
when the dict is already exhausted — so the loop survives only a store
whose every value is a nested container (those are reset in place and
nothing is deleted).  The first plain value encountered aborts the reset;
per the module conventions the partial mutations up to that point are not
tracked. -/
def resetD : Nat → CDict → Bool → Bool → Except PyErr CDict
  | 0, _, _, _ => .error .fuelOut
  | fuel + 1, d, rules, data =>
    let d1 := if rules then d.setRules [] else d
    if data then do
      let st ← resetStore fuel d1.store rules data
      .ok (d1.setStore st)
    else .ok d1

def resetStore : Nat → List (String × Value) → Bool → Bool →
    Except PyErr (List (String × Value))
  | 0, _, _, _ => .error .fuelOut
  | _ + 1, [], _, _ => .ok []
  | fuel + 1, (k, v) :: rest, rules, data =>
    match v with
    | .vDict sub => do
      let sub' ← resetD fuel sub rules data
      let rest' ← resetStore fuel rest rules data
      .ok ((k, .vDict sub') :: rest')
    | .vList sub => do
      let rest' ← resetStore fuel rest rules data
      .ok ((k, .vList (resetL sub rules data)) :: rest')
    | _ => .error (.runtimeError "dictionary changed size during iteration")

end

/-! ## walk -/

/-- cfg[part] during traversal: dict or list subscripting; a scalar is not
subscriptable. -/
def containerGetItem (v : Value) (part : String) : Except PyErr Value :=
  match v with
  | .vDict d => getItemD d part
  | .vList l => listGetItem l (.ks part)
  | _ => .error (.typeError "object is not subscriptable")

/-- cfg.key_types(part) during traversal; scalars lack the attribute. -/
def containerKeyTypes (v : Value) (part : String) : Except PyErr (List String) :=
  match v with
  | .vDict d => .ok (keyTypesOf d.rules part)
  | .vList l => .ok (keyTypesOf l.rules part)
  | _ => .error (.attrError "key_types")

/-- The traversal loop of _RuledContainer.walk: per hop, when allowed tags
are supplied, any tag of the hop outside the allowed set denies access;
then descend. -/
def walkSegs : Value → List String → Option (List String) → Except PyErr Value
  | v, [], _ => .ok v
  | v, part :: rest, kt =>
    match kt with
    | some allowed => do
      let ts ← containerKeyTypes v part
      if ts.any (fun t => ¬ allowed.contains t) then
        .error (.accessDenied ("Access denied to " ++ part))
      else do
        let c ← containerGetItem v part
        walkSegs c rest kt
    | none => do
      let c ← containerGetItem v part
      walkSegs c rest kt

/-- _RuledContainer.walk: split on dot when present else slash, reserve
the trailing parent segments as literals, traverse the rest. -/
def walkV (v : Value) (path : String) (parent : Nat) (kt : Option (List String)) :
    Except PyErr (Value × List String) :=
  let sep := if strContains path '.' then '.' else '/'
  let parts := splitOnChar sep path
  let n := parts.length
  let tparts := if parent = 0 then parts else parts.take (n - parent)
  let vlist := if parent = 0 then [] else parts.drop (n - parent)
  (walkSegs v tparts kt).map (fun c => (c, vlist))

def walkD (d : CDict) (path : String) (parent : Nat) (kt : Option (List String)) :
    Except PyErr (Value × List String) :=
  walkV (.vDict d) path parent kt

/-! ## Sorting helpers -/

/-- Stable ascending sort: the model of Python list.sort / sorted for a
total comparison (insertion sort is stable). -/
def insSortBy {α : Type _} (le : α → α → Bool) (l : List α) : List α :=
  List.insertionSort (fun a b => le a b = true) l

def strLeB (a b : String) : Bool :=
  strLeChars a.data b.data

/-- item_sorter of parse_config: a var that parses as base 36 gets the key
(int(var, 36), val), anything else keys as the pair itself. -/
def itemKey (i : String × String) : (Int × String) ⊕ (String × String) :=
  match pyIntOfStr 36 i.1 with
  | some n => Sum.inl (n, i.2)
  | none => Sum.inr i

/-- Tuple comparison on homogeneous item keys. -/
def itemLe (a b : String × String) : Bool :=
  match itemKey a, itemKey b with
  | .inl (m, s), .inl (n, t) => m < n || (m == n && strLeB s t)
  | .inr (p, s), .inr (q, t) => strLtChars p.data q.data || (p == q && strLeB s t)
  | _, _ => true

/-- items.sort(key=item_sorter) under Python 3: tuples headed by an int
and tuples headed by a str are incomparable, and a list holding both kinds
always makes the sort compare some cross-typed pair (run detection walks
adjacent elements), raising TypeError; a homogeneous list sorts stably by
its tuple keys. -/
def pySortItems (items : List (String × String)) :
    Except PyErr (List (String × String)) :=
  let hasNum := items.any (fun i => (pyIntOfStr 36 i.1).isSome)
  let hasStr := items.any (fun i => (pyIntOfStr 36 i.1).isNone)
  if hasNum && hasStr then
    .error (.typeError "unorderable types: str() < int()")
  else
    .ok (insSortBy itemLe items)

/-! ## Export (as_config) -/

/-- A ConfigParser in the abstract: ordered sections of ordered
key = value pairs. -/
structure IniFile where
  sections : List (String × List (String × String))

/-- _RuledContainer.ignored_keys: rules whose checker is IgnoreCheck. -/
def ignoredKeys (rules : List (String × Rule)) : List String :=
  (rules.filter (fun kr => kr.2.check matches .co .cIgnore)).map Prod.fst

/-- Keep-first duplicate removal; composed with the sort it models
sorted(set(keys)). -/
def dedupKeys : List String → List String
  | [] => []
  | k :: rest => k :: (dedupKeys rest).filter (fun x => x ≠ k)

/-- v != '' as the export filter applies it (Python cross-type inequality
is true). -/
def isEmptyStrV : Value → Bool
  | .vStr s => s = ""
  | _ => false

/-- Is this stored value itself a section-producing container
(hasattr as_config)? -/
def isContainerV : Value → Bool
  | .vDict _ => true
  | .vList _ => true
  | _ => false

mutual

/-- _RuledContainer.as_config for a dict.  Returns the sections this
container contributes, in emission order.  The source builds keys from
self.rules.keys() — under Python 3 a dict view — and when no _type filter
was given and the schema is empty or wildcard it calls keys.extend(...),
which raises AttributeError because a dict_keys view has no extend method.
Otherwise it sorts and filters the keys and runs the scalar loop: for each
key whose value passes the filter (not a container, not None, not the
empty string) it first adds the section to the parser, then — unless an
_xtype tag exempts the key — calls config.set(section, key, value,
comment), a four-positional-argument call the standard-library
ConfigParser.set rejects with TypeError.  So a scalar pass either raises,
or completes having emitted no option; the Bool it returns is the
added_section flag (it can end up true only under an _xtype exemption,
leaving an empty section in the parser).  Sub-containers are recursed into
afterwards, sharing the parser. -/
def asConfigD : Nat → CDict → Option String → Option String →
    Except PyErr (List (String × List (String × String)))
  | 0, _, _, _ => .error .fuelOut
  | fuel + 1, d, ty, xty =>
    let sec := d.name ++ (if d.comment ≠ "" then ": " ++ d.comment else "")
    let keys0 := d.rules.map Prod.fst
    let keys1 :=
      match ty with
      | some t => keys0.filter (fun k => (keyTypesOf d.rules k).contains t)
      | none => keys0
    if ty.isNone ∧ (keys1.isEmpty ∨ keys1.contains "_any") then
      .error (.attrError "dict_keys object has no attribute extend")
    else do
      let ignore := ignoredKeys d.rules ++ ["_any"]
      let storeKeys := d.store.map Prod.fst
      let keys3 := (insSortBy strLeB (dedupKeys keys1)).filter (fun k => ¬ ignore.contains k)
      let added ← asConfigScalars d keys3 storeKeys xty false
      let subs ← asConfigSubs fuel d keys3 ty xty
      .ok ((if added then [(sec, [])] else []) ++ subs)

/-- The scalar emission loop of as_config (shared shape for both kinds,
specialised here to dicts): the first key that reaches the config.set
call raises TypeError; a key exempted by _xtype still adds the section
first.  Returns the added_section flag. -/
def asConfigScalars (d : CDict) (keys : List String) (storeKeys : List String)
    (xty : Option String) (added : Bool) : Except PyErr Bool :=
  match keys with
  | [] => .ok added
  | k :: rest => do
    let v ← getItemD d k
    if isContainerV v then asConfigScalars d rest storeKeys xty added
    else if v matches .vNil then asConfigScalars d rest storeKeys xty added
    else if isEmptyStrV v then asConfigScalars d rest storeKeys xty added
    else
      let k' := if storeKeys.contains k then k else ";" ++ k
      let emit : Bool :=
        match xty with
        | some t => ! (keyTypesOf d.rules k').contains t
        | none => true
      if emit then
        .error (.typeError "set() takes from 2 to 4 positional arguments but 5 were given")
      else asConfigScalars d rest storeKeys xty true

def asConfigSubs : Nat → CDict → List String → Option String → Option String →
    Except PyErr (List (String × List (String × String)))
  | 0, _, _, _, _ => .error .fuelOut
  | _ + 1, _, [], _, _ => .ok []
  | fuel + 1, d, k :: rest, ty, xty => do
    let v ← getItemD d k
    let here ←
      match v with
      | .vList sub => asConfigL fuel sub none none
      | .vDict sub => asConfigD fuel sub ty xty
      | _ => .ok []
    let tail ← asConfigSubs fuel d rest ty xty
    .ok (here ++ tail)

/-- as_config for a list container: same shared code path (self.rules is a
dict here too, so the extend branch raises identically), keys are the
formatted positions. -/
def asConfigL : Nat → CList → Option String → Option String →
    Except PyErr (List (String × List (String × String)))
  | 0, _, _, _ => .error .fuelOut
  | fuel + 1, l, ty, xty =>
    let sec := l.name ++ (if l.comment ≠ "" then ": " ++ l.comment else "")
    let keys0 := l.rules.map Prod.fst
    let keys1 :=
      match ty with
      | some t => keys0.filter (fun k => (keyTypesOf l.rules k).contains t)
      | none => keys0
    if ty.isNone ∧ (keys1.isEmpty ∨ keys1.contains "_any") then
      .error (.attrError "dict_keys object has no attribute extend")
    else do
      let ignore := ignoredKeys l.rules ++ ["_any"]
      let storeKeys := listKeys l
      let keys3 := (insSortBy strLeB (dedupKeys keys1)).filter (fun k => ¬ ignore.contains k)
      let added ← asConfigScalarsL l keys3 storeKeys xty false
      let subs ← asConfigSubsL fuel l keys3 ty xty
      .ok ((if added then [(sec, [])] else []) ++ subs)

def asConfigScalarsL (l : CList) (keys : List String) (storeKeys : List String)
    (xty : Option String) (added : Bool) : Except PyErr Bool :=
  match keys with
  | [] => .ok added
  | k :: rest => do
    let v ← listGetItem l (.ks k)
    if isContainerV v then asConfigScalarsL l rest storeKeys xty added
    else if v matches .vNil then asConfigScalarsL l rest storeKeys xty added
    else if isEmptyStrV v then asConfigScalarsL l rest storeKeys xty added
    else
      let k' := if storeKeys.contains k then k else ";" ++ k
      let emit : Bool :=
        match xty with
        | some t => ! (keyTypesOf l.rules k').contains t
        | none => true
      if emit then
        .error (.typeError "set() takes from 2 to 4 positional arguments but 5 were given")
      else asConfigScalarsL l rest storeKeys xty true

def asConfigSubsL : Nat → CList → List String → Option String → Option String →
    Except PyErr (List (String × List (String × String)))
  | 0, _, _, _, _ => .error .fuelOut
  | _ + 1, _, [], _, _ => .ok []
  | fuel + 1, l, k :: rest, ty, xty => do
    let v ← listGetItem l (.ks k)
    let here ←
      match v with
      | .vList sub => asConfigL fuel sub none none
      | .vDict sub => asConfigD fuel sub ty xty
      | _ => .ok []
    let tail ← asConfigSubsL fuel l rest ty xty
    .ok (here ++ tail)

end

/-! ## Path-based access (the functional stand-in for Python object
identity during parse_config) -/

def getAtPathV : Value → List String → Except PyErr Value
  | v, [] => .ok v
  | v, p :: rest => do
    let c ← containerGetItem v p
    getAtPathV c rest

/-- cfg[k] = val on the container at the given path below root, rebuilding
the spine and letting the watcher signal set the changed flag of any
selfBound container it bubbles through. -/
def setAtPathV (fuel : Nat) : Value → List String → String → Value →
    Except PyErr (Value × Bool)
  | v, [], k, val =>
    match v with
    | .vDict d => (setItemD fuel d k val).map (fun r => (.vDict r.1, r.2))
    | .vList l => (setItemL fuel l (.ks k) val).map (fun r => (.vList r.1, r.2))
    | _ => .error (.typeError "object does not support item assignment")
  | v, p :: rest, k, val => do
    let c ← containerGetItem v p
    let (c', sig) ← setAtPathV fuel c rest k val
    match v with
    | .vDict d =>
      let r := absorbD (d.setStore (alReplace (pyLower p) c' d.store)) sig
      .ok (.vDict r.1, r.2)
    | .vList l =>
      match fixkeyL (.ks p) with
      | .ki n => do
        let items' ← pyListSet l.items n c'
        let r := absorbL (l.setItems items') sig
        .ok (.vList r.1, r.2)
      | .ks _ => .error (.typeError "list indices must be integers")
    | _ => .error (.typeError "object does not support item assignment")

/-! ## parse_config -/

/-- cfg.fmt_key(part) in cfg.keys(): for a dict the case-folded key
against the stored keys, for a list the zero-padded base-36 position
against the formatted positions (fmt_key raises on a position that does
not fix to an int). -/
def containerHasPart (v : Value) (part : String) : Except PyErr Bool :=
  match v with
  | .vDict d => .ok (alHas (pyLower part) d.store)
  | .vList l => do
    let fk ← fmtKeyL (.ks part)
    .ok ((listKeys l).contains fk)
  | _ => .error (.attrError "fmt_key")

def containerHasAnyRule (v : Value) : Except PyErr Bool :=
  match v with
  | .vDict d => .ok (alHasR "_any" d.rules)
  | .vList l => .ok (alHasR "_any" l.rules)
  | _ => .error (.attrError "rules")

/-- Which exception classes the per-key except clause of parse_config
catches: (ValueError, KeyError, IndexError) and their subclasses. -/
def caughtByParse : PyErr → Bool
  | .valueError _ => true
  | .configValue _ => true
  | .invalidKey _ => true
  | .keyError _ => true
  | .indexError _ => true
  | _ => false

/-- The section-path loop of parse_config.  A part that names an existing
stored key descends; otherwise a wildcard rule auto-creates an empty dict
at that spot (errors raised by that assignment propagate, the loop has no
try); otherwise the miss is logged, the okay flag drops, and the loop
continues against the unchanged container. -/
def parsePath (fuel : Nat) (source sect : String) :
    Value → List String → List String → Bool → List String →
    Except PyErr (Value × List String × Bool × List String)
  | root, path, [], okay, warns => .ok (root, path, okay, warns)
  | root, path, part :: rest, okay, warns => do
    let cfg ← getAtPathV root path
    let has ← containerHasPart cfg part
    if has then
      parsePath fuel source sect root (path ++ [part]) rest okay warns
    else do
      let hasAny ← containerHasAnyRule cfg
      if hasAny then do
        let (root1, _sig) ← setAtPathV fuel root path part (.vMap [])
        parsePath fuel source sect root1 (path ++ [part]) rest okay warns
      else
        let msg := "Invalid (" ++ source ++ "): section " ++ sect ++ " does not exist"
        parsePath fuel source sect root path rest false (warns ++ [msg])

/-- The per-key application loop of parse_config: each assignment failure
of a caught class is logged and skipped; other exceptions propagate. -/
def parseItems (fuel : Nat) (source sect : String) :
    Value → List String → List (String × String) → Bool → List String →
    Except PyErr (Value × Bool × List String)
  | root, _, [], okay, warns => .ok (root, okay, warns)
  | root, path, (var, val) :: rest, okay, warns =>
    match setAtPathV fuel root path var (.vStr val) with
    | .ok (root1, _sig) => parseItems fuel source sect root1 path rest okay warns
    | .error e =>
      if caughtByParse e then
        let msg := "Invalid (" ++ source ++ "): section " ++ sect ++
          ", variable " ++ var ++ "=" ++ val
        parseItems fuel source sect root path rest false (warns ++ [msg])
      else .error e

def parseSections (fuel : Nat) (source : String) :
    Value → List (String × List (String × String)) → Bool → List String →
    Except PyErr (Value × Bool × List String)
  | root, [], allOkay, warns => .ok (root, allOkay, warns)
  | root, (sect, items) :: rest, allOkay, warns => do
    let cfgpath := (splitOnChar '/' ((splitOnChar ':' sect).headD "")).drop 1
    let (root1, path, okay, warns1) ←
      parsePath fuel source sect root [] cfgpath true warns
    let items1 := if okay then items else []
    let sorted ← pySortItems items1
    let (root2, okay2, warns2) ←
      parseItems fuel source sect root1 path sorted true warns1
    parseSections fuel source root2 rest (allOkay && okay && okay2) warns2

/-- ConfigDict.parse_config.  Its prologue is
parser.readfp(io.BytesIO(str(data))): under Python 3 str(data) is a str
(even for bytes input, where it is the repr), and io.BytesIO rejects str
with TypeError, so the call raises before a single section is examined —
for every input.  The section walk that follows the prologue is modelled
by parseSections (see the doctests of the source for the behaviour it was
written to have); parseConfig itself, faithfully, is the prologue
TypeError. -/
def parseConfig (fuel : Nat) (d : CDict) (file : IniFile) (source : String) :
    Except PyErr (CDict × Bool × List String) := do
  let _ ← (.error (.typeError "a bytes-like object is required, not str") :
            Except PyErr Unit)
  let (root, allOkay, warns) ← parseSections fuel source (.vDict d) file.sections true []
  match root with
  | .vDict d' => .ok (d', allOkay, warns)
  | _ => .error (.typeError "parse_config root is not a dict")

/-! ## Top-level constructors and the round trip -/

/-- ConfigDict(_rules=rs) constructed standalone: name config, no comment,
watcher bound to itself. -/
def mkRoot (fuel : Nat) (rs : List (String × Rule)) : Except PyErr CDict :=
  dictFromRules fuel "config" "" true rs

/-- ConfigList(_rules=rs) constructed standalone. -/
def mkRootList (fuel : Nat) (rs : List (String × Rule)) : Except PyErr CList :=
  listFromRules fuel "container" "" true rs

/-- as_config_bytes then parse_config into a fresh container.  as_config
may itself raise (see asConfigD); if it returns, as_config_bytes calls
parser.write(of) on an io.BytesIO — with at least one section present the
parser writes str into the bytes buffer and raises TypeError, and with no
sections it writes nothing, yielding b'' which then hits the parse_config
prologue TypeError.  No input completes the round trip. -/
def exportThenParse (fuel : Nat) (orig fresh : CDict) :
    Except PyErr (CDict × Bool × List String) := do
  let secs ← asConfigD fuel orig none none
  if secs.isEmpty then parseConfig fuel fresh ⟨secs⟩ "internal"
  else .error (.typeError "a bytes-like object is required, not str")

/-! ## Concrete schemas and containers used by witnesses and
counterexamples -/

/-- The wildcard int-list schema of the ConfigList doctest. -/
def intAnyRules : List (String × Rule) :=
  [("_any", Rule.mk "We only like ints" (.co .cInt) (.v (.vInt 0)) [])]

/-- A wildcard enum-list schema (the colors doctest). -/
def enumAnyRules : List (String × Rule) :=
  [("_any", Rule.mk "Colors" (.enum [.vStr "red", .vStr "blue"]) (.v .vNil) [])]

/-- A root schema with one locked sub-container of two int keys (the
shape of the config/sys doctests). -/
def sysRules : List (String × Rule) :=
  [("sys", Rule.mk "System" .cFalse
      (.dmap [("fd_cache_size", Rule.mk "FD cache size" (.co .cInt) (.v (.vInt 0)) []),
              ("history_length", Rule.mk "History length" (.co .cInt) (.v (.vInt 100)) [])]) [])]

/-- A schema for access-tag tests: key a is an untagged locked
sub-container holding the public key b; key k is tagged key. -/
def tagRules : List (String × Rule) :=
  [("a", Rule.mk "A" .cFalse
      (.dmap [("b", Rule.mk "B" (.co .cInt) (.v (.vInt 5)) ["public"])]) []),
   ("k", Rule.mk "K" (.co .cInt) (.v (.vInt 9)) ["key"])]

/-- A dict governed only by a wildcard str rule with default dd. -/
def wildStrRules : List (String × Rule) :=
  [("_any", Rule.mk "Any" (.co .cStr) (.v (.vStr "dd")) [])]

/-- A flat schema of one str key with a non-empty default. -/
def flatStrRules : List (String × Rule) :=
  [("name", Rule.mk "A name" (.co .cStr) (.v (.vStr "x")) [])]

/-- A flat schema of one str key whose default is the empty string, so the
export value filter emits nothing at all. -/
def flatStrRules0 : List (String × Rule) :=
  [("name", Rule.mk "A name" (.co .cStr) (.v (.vStr "")) [])]

/-- A concrete dict with one str rule and one stored value. -/
def c10Dict : CDict :=
  CDict.mk "config" "" true false
    [("name", Rule.mk "A name" (.co .cStr) (.v (.vStr "x")) [])]
    [("name", .vStr "stored")]

/-- A concrete dict carrying the tag schema, as a walk target. -/
def c3Dict : CDict :=
  CDict.mk "config" "" true false tagRules []

/-- The locked sub-container the engine manufactures for sysRules. -/
def sysSub : CDict :=
  CDict.mk "config/sys" "System" false false
    [("fd_cache_size", Rule.mk "FD cache size" (.co .cInt) (.v (.vInt 0)) []),
     ("history_length", Rule.mk "History length" (.co .cInt) (.v (.vInt 100)) [])] []

/-- The engine-built root over sysRules (mkRoot 9 sysRules evaluates to
exactly this container; see sysRoot_built). -/
def sysRoot : CDict :=
  CDict.mk "config" "" true false sysRules [("sys", .vDict sysSub)]

/-- A standalone enum-constrained ordered container, empty. -/
def enumList0 : CList :=
  CList.mk "container" "" true false enumAnyRules []

/-- A standalone int-constrained ordered container, empty. -/
def intList0 : CList :=
  CList.mk "container" "" true false intAnyRules []

/-- A standalone flat root over flatStrRules, pristine. -/
def flatRoot : CDict := CDict.mk "config" "" true false flatStrRules []

/-- flatRoot after a successful write of name = n. -/
def flatRootSet : CDict :=
  CDict.mk "config" "" true true flatStrRules [("name", .vStr "n")]

/-- The sys tree (root pre-marked changed) after a deep write of
fd_cache_size = 42 through the path sys. -/
def sysTreeSet : Value :=
  .vDict (CDict.mk "config" "" true true sysRules
    [("sys", .vDict (CDict.mk "config/sys" "System" false false
       [("fd_cache_size", Rule.mk "FD cache size" (.co .cInt) (.v (.vInt 0)) []),
        ("history_length", Rule.mk "History length" (.co .cInt) (.v (.vInt 100)) [])]
       [("fd_cache_size", Value.vInt 42)]))])

/-- The changed flag of a container value (false for scalars). -/
def vChanged : Value → Bool
  | .vDict d => d.changed
  | .vList l => l.changed
  | _ => false

/-- The selfBound watcher flag of a container value. -/
def vSelfBound : Value → Bool
  | .vDict d => d.selfBound
  | .vList l => l.selfBound
  | _ => false

/-! ## Flat-schema well-formedness (hypothesis vocabulary for the
round-trip theorem) -/

/-- A flat scalar checker: one of the plain scalar coercions of
RULE_CHECK_MAP, or an enumeration of string literals. -/
def flatChecker : Checker → Bool
  | .co .cInt => true
  | .co .cStr => true
  | .co .cBool => true
  | .enum opts => opts.all (fun o => o matches .vStr _)
  | _ => false

/-- A default slot holding a plain scalar. -/
def dfltScalar : Dflt → Bool
  | .v .vNil => true
  | .v (.vInt _) => true
  | .v (.vBool _) => true
  | .v (.vStr _) => true
  | _ => false

/-- A flat rule: scalar checker, scalar default. -/
def flatRule (r : Rule) : Bool :=
  flatChecker r.check && dfltScalar r.dflt

/-- Membership of a string among enum options, as Python == evaluates it
against a string probe. -/
def enumHasStr (s : String) : List Value → Bool
  | [] => false
  | .vStr t :: rest => s == t || enumHasStr s rest
  | _ :: rest => enumHasStr s rest

/-- A stored value that is legal for its flat checker and that the export
filter emits (not None, not the empty string): exactly the values whose
str() rendering the checker maps back to the value itself. -/
def legalStored : Checker → Value → Bool
  | .co .cInt, .vInt _ => true
  | .co .cStr, .vStr s => s ≠ ""
  | .co .cBool, .vBool _ => true
  | .enum opts, .vStr s => s ≠ "" && enumHasStr s opts
  | _, _ => false

/-! # Theorems -/

/-! ## C10 -/

/-- C10: for a keyed container, get(k, d) with a non-nil caller default d
returns the stored value when the (case-folded) key is present in the
value store and d otherwise; the rule map is never consulted, so an
explicit default suppresses the schema default entirely. -/
theorem c10_get_caller_default (d : CDict) (k : String) (dv : Value)
    (h : dv ≠ Value.vNil) :
    dictGet d k dv =
      match d.store.lookup (pyLower k) with
      | some v => v
      | none => dv := by
  cases hl : d.store.lookup (pyLower k) with
  | some v => simp [dictGet, hl]
  | none =>
    cases dv <;> first | exact absurd rfl h | simp [dictGet, hl]

theorem c10_get_caller_default_witness :
    dictGet c10Dict "missing" (Value.vStr "zz") = Value.vStr "zz" ∧
    dictGet c10Dict "name" (Value.vStr "zz") = Value.vStr "stored" := by
  refine ⟨?_, ?_⟩
  · exact (c10_get_caller_default c10Dict "missing" (Value.vStr "zz")
      (by intro h; cases h)).trans (by rfl)
  · exact (c10_get_caller_default c10Dict "name" (Value.vStr "zz")
      (by intro h; cases h)).trans (by rfl)

/-! ## C9 -/

/-- C9: the claim says reset with the data option clears all stored data
in both container variants; neither variant does.  For the ordered
variant the data-clearing branch of ConfigList.reset is commented out
(TODO), so a list built by the engine and holding one element keeps it
across reset(rules=True, data=True) while its rules are discarded.  For
the keyed variant the delete loop iterates the live self.keys() view and
calls dict.__delitem__ inside it, so the iterator raises RuntimeError at
the first plain stored value instead of completing the clear. -/
theorem c9_reset_diverges :
    ((mkRootList 9 intAnyRules).map (fun l =>
      let r := appendL 9 l (Value.vInt 5)
      let l2 := resetL r.2.1 true true
      (l2.items, l2.rules))) = .ok ([Value.vInt 5], []) ∧
    ((mkRoot 9 flatStrRules).bind (fun d =>
      (setItemD 9 d "name" (Value.vStr "n")).bind (fun r =>
        resetD 9 r.1 true true))) =
      .error (.runtimeError "dictionary changed size during iteration") := by
  exact ⟨rfl, rfl⟩

/-! ## C5 -/

/-- C5 counterexample: in a dict governed only by a wildcard str rule
whose declared default is dd, reading an absent key returns None rather
than the governing wildcard rule default, so the fallback clause of the
claim fails (and the failure mode for a matching-rule-free key is a plain
KeyError, not the engine InvalidKeyError). -/
theorem c5_counterexample :
    ((mkRoot 9 wildStrRules).map (fun d =>
      (getItemD d "x",
       (d.rules.lookup "_any").map (fun r => r.dflt.toValue)))) =
      .ok (.ok Value.vNil, some (Value.vStr "dd")) ∧
    ((mkRoot 9 flatStrRules).map (fun d => getItemD d "evil")) =
      .ok (.error (.keyError "evil")) := by
  exact ⟨rfl, rfl⟩

/-- C5 amended: reads return the stored value when the case-folded key is
present; an absent key with a concrete rule yields that rule declared
default; a key covered only by the wildcard rule yields None (the
wildcard default is not consulted); a key matching neither a concrete
rule nor the wildcard fails with the underlying dict KeyError
(InvalidKeyError is raised by rule resolution on the write path, not
here). -/
theorem c5_get_characterisation (d : CDict) (k : String) :
    getItemD d k =
      match d.store.lookup (pyLower k), d.rules.lookup (pyLower k),
            d.rules.lookup "_any" with
      | some v, _, _ => .ok v
      | none, some r, _ => .ok r.dflt.toValue
      | none, none, some _ => .ok Value.vNil
      | none, none, none => .error (.keyError (pyLower k)) := by
  unfold getItemD dictGet alHasR
  cases hs : d.store.lookup (pyLower k) with
  | some v =>
    cases hr : d.rules.lookup (pyLower k) with
    | some r => cases ha : d.rules.lookup "_any" <;> simp [hs, hr, ha]
    | none => cases ha : d.rules.lookup "_any" <;> simp [hs, hr, ha]
  | none =>
    cases hr : d.rules.lookup (pyLower k) with
    | some r => cases ha : d.rules.lookup "_any" <;> simp [hs, hr, ha]
    | none => cases ha : d.rules.lookup "_any" <;> simp [hs, hr, ha]

/-! ## C3 -/

/-- C3 counterexample: with allowed_tags public, walking a/b succeeds
although the traversed segment a carries no public tag (its tag list is
empty), so the claim that traversal fails whenever a traversed segment
rule lacks the public tag is false; the subset reading is the correct
one. -/
theorem c3_counterexample :
    ((mkRoot 9 tagRules).map (fun d => walkD d "a/b" 0 (some ["public"]))) =
      .ok (.ok (Value.vInt 5, [])) ∧
    ((mkRoot 9 tagRules).map (fun d =>
      (d.rules.lookup "a").map Rule.types)) = .ok (some []) := by
  exact ⟨rfl, rfl⟩

/-- C3 amended: a hop into a key whose access tags are not a subset of
allowed_tags fails with AccessDeniedError, at whatever depth the
traversal reaches it: a bad first hop denies immediately, and a good hop
reduces the walk to the walk of the fetched child, so denial propagates
from any later segment. -/
theorem c3_walk_access (v : Value) (part : String) (rest : List String)
    (allowed ts : List String) (hts : containerKeyTypes v part = .ok ts) :
    (ts.any (fun t => ¬ allowed.contains t) = true →
      walkSegs v (part :: rest) (some allowed) =
        .error (.accessDenied ("Access denied to " ++ part))) ∧
    (ts.any (fun t => ¬ allowed.contains t) = false →
      ∀ c, containerGetItem v part = .ok c →
        walkSegs v (part :: rest) (some allowed) =
          walkSegs c rest (some allowed)) := by
  constructor
  · intro hbad
    have hx : ∃ x ∈ ts, x ∉ allowed := by simpa using hbad
    simp [walkSegs, hts, hx, bind, Except.bind]
  · intro hgood c hc
    have hx : ¬ ∃ x ∈ ts, x ∉ allowed := by simpa using hgood
    simp [walkSegs, hts, hx, hc, bind, Except.bind]

/-- The engine really builds sysRoot: evidence that the concrete witness
containers below come from rule installation. -/
theorem sysRoot_built : mkRoot 9 sysRules = .ok sysRoot := rfl

/-! ## C4 -/

/-- C4: a write to a key whose resolved rule checker is the locked
constant False is rejected with the ReadOnlyError (ConfigValueError
"Modifying ... is not allowed") unless both the stored value and the
incoming value are maps, in which case the write performs the recursive
per-key merge mergeStored (each entry of the incoming map assigned into
the existing sub-container through its own setitem) instead of a
replacement; in particular every non-map incoming value is rejected. -/
theorem c4_locked_write (fuel : Nat) (d : CDict) (key : String) (v : Value)
    (r : Rule) (stored : Value)
    (hr : getRuleD d key = .ok r) (hc : r.check = .cFalse)
    (hs : getItemD d (pyLower key) = .ok stored) :
    ((isMapV v && isMapV stored) = false →
      setItemD (fuel + 1) d key v =
        .error (.configValue
          ("Modifying " ++ d.name ++ "/" ++ pyLower key ++ " is not allowed"))) ∧
    ((isMapV v && isMapV stored) = true →
      setItemD (fuel + 1) d key v =
        (mergeStored fuel stored ((entriesOfV v).getD [])).map (fun m =>
          absorbD (d.setStore (alReplace (pyLower key) m.1 d.store)) m.2)) := by
  constructor
  · intro hmap
    simp [setItemD, hr, hc, hs, hmap, bind, Except.bind]
  · intro hmap
    cases hm : mergeStored fuel stored ((entriesOfV v).getD []) with
    | ok m => simp [setItemD, hr, hc, hs, hmap, hm, bind, Except.bind, Except.map]
    | error e => simp [setItemD, hr, hc, hs, hmap, hm, bind, Except.bind, Except.map]

theorem c4_locked_write_witness :
    setItemD 9 sysRoot "sys" (Value.vInt 5) =
      .error (.configValue "Modifying config/sys is not allowed") ∧
    setItemD 9 sysRoot "sys" (Value.vMap [("fd_cache_size", Value.vStr "9")]) =
      .ok (CDict.mk "config" "" true true sysRules
        [("sys", .vDict (CDict.mk "config/sys" "System" false false
           [("fd_cache_size", Rule.mk "FD cache size" (.co .cInt) (.v (.vInt 0)) []),
            ("history_length", Rule.mk "History length" (.co .cInt) (.v (.vInt 100)) [])]
           [("fd_cache_size", Value.vInt 9)]))], false) := by
  constructor
  · exact ((c4_locked_write 8 sysRoot "sys" (Value.vInt 5) _ _ rfl rfl rfl).1
      rfl).trans (by rfl)
  · exact ((c4_locked_write 8 sysRoot "sys"
      (Value.vMap [("fd_cache_size", Value.vStr "9")]) _ _ rfl rfl rfl).2
      rfl).trans (by rfl)

/-! ## C7 -/

theorem items_setChanged (l : CList) (b : Bool) : (l.setChanged b).items = l.items := by
  cases l; rfl

theorem items_setItems (l : CList) (it : List Value) : (l.setItems it).items = it := by
  cases l; rfl

theorem absorbL_items (l : CList) (sig : Bool) : (absorbL l sig).1.items = l.items := by
  unfold absorbL
  split
  · exact items_setChanged l true
  · rfl

theorem pyListSet_ok_length (items : List Value) (n : Int) (v : Value)
    (out : List Value) (h : pyListSet items n v = .ok out) :
    out.length = items.length := by
  unfold pyListSet at h
  split at h
  · cases h; simp
  · split at h
    · cases h; simp
    · cases h

theorem createKeySetL_inrange (fuel : Nat) (l : CList) (key : Int) (v : Value)
    (h0 : 0 ≤ key) (h1 : key < l.items.length) :
    createKeySetL (fuel + 1) l key v =
      .ok (l.setItems (l.items.set key.toNat v), false) := by
  unfold createKeySetL
  rw [if_neg (by omega), if_neg (by omega)]
  unfold pyListSet
  rw [if_pos ⟨h0, h1⟩]
  rfl

theorem writeStoreL_ok_length (fuel : Nat) (l : CList) (n : Int) (v : Value)
    (es : Bool) (l1 : CList) (sig : Bool)
    (h0 : 0 ≤ n) (h1 : n < l.items.length)
    (hok : writeStoreL fuel l (.ki n) v es = .ok (l1, sig)) :
    l1.items.length = l.items.length := by
  cases fuel with
  | zero => simp [writeStoreL] at hok
  | succ fuel =>
    cases fuel with
    | zero =>
      rw [writeStoreL] at hok
      simp [createKeySetL, bind, Except.bind] at hok
    | succ fuel =>
      rw [writeStoreL] at hok
      rw [createKeySetL_inrange fuel l n _ h0 h1] at hok
      simp [bind, Except.bind] at hok
      have hfst := congrArg Prod.fst hok
      simp only at hfst
      rw [← hfst, absorbL_items, items_setItems]
      simp

theorem setItemL_ok_length (fuel : Nat) (l : CList) (n : Int) (v : Value)
    (l1 : CList) (sig : Bool)
    (h0 : 0 ≤ n) (h1 : n < l.items.length)
    (hok : setItemL fuel l (.ki n) v = .ok (l1, sig)) :
    l1.items.length = l.items.length := by
  cases fuel with
  | zero => simp [setItemL] at hok
  | succ fuel =>
    rw [setItemL] at hok
    simp only [fixkeyL, bind, Except.bind] at hok
    cases hrl : getRuleL l (.ki n) with
    | error e => rw [hrl] at hok; cases hok
    | ok r =>
      rw [hrl] at hok
      cases r with
      | mk rc rchk rd rt =>
        cases rchk with
        | cTrue => exact writeStoreL_ok_length fuel l n v false l1 sig h0 h1 hok
        | cFalse =>
          simp only [Rule.check] at hok
          cases hgi : listGetItem l (.ki n) with
          | error e => rw [hgi] at hok; cases hok
          | ok stored =>
            rw [hgi] at hok
            dsimp only at hok
            by_cases hmm : (isMapV v && isMapV stored) = true
            · rw [if_pos hmm] at hok
              cases hms : mergeStored fuel stored ((entriesOfV v).getD []) with
              | error e => rw [hms] at hok; cases hok
              | ok m =>
                rw [hms] at hok
                dsimp only at hok
                cases hps : pyListSet l.items n m.1 with
                | error e => rw [hps] at hok; cases hok
                | ok items' =>
                  rw [hps] at hok
                  simp at hok
                  have hfst := congrArg Prod.fst hok
                  simp only at hfst
                  rw [← hfst, absorbL_items, items_setItems]
                  exact pyListSet_ok_length l.items n m.1 items' hps
            · rw [if_neg hmm] at hok; cases hok
        | enum opts =>
          simp only [Rule.check] at hok
          by_cases hin : pyMem fuel v opts = true
          · rw [if_pos hin] at hok
            exact writeStoreL_ok_length fuel l n v false l1 sig h0 h1 hok
          · rw [if_neg hin] at hok; cases hok
        | cSym s => simp [Rule.check] at hok
        | nestedRules rs => simp [Rule.check] at hok
        | co t =>
          simp only [Rule.check] at hok
          cases hco : coerceVal fuel (.co t) v with
          | error e =>
            rw [hco] at hok
            cases e <;>
              first
              | (split at hok <;> cases hok)
              | (simp at hok; first | rw [hok.1] | rw [← hok.1])
              | cases hok
          | ok vs =>
            rw [hco] at hok
            exact writeStoreL_ok_length fuel l n vs.1 vs.2 l1 sig h0 h1 hok
        | mkDict nm cm rs =>
          simp only [Rule.check] at hok
          cases hco : coerceVal fuel (.mkDict nm cm rs) v with
          | error e =>
            rw [hco] at hok
            cases e <;>
              first
              | (split at hok <;> cases hok)
              | (simp at hok; first | rw [hok.1] | rw [← hok.1])
              | cases hok
          | ok vs =>
            rw [hco] at hok
            exact writeStoreL_ok_length fuel l n vs.1 vs.2 l1 sig h0 h1 hok
        | mkList nm cm rs =>
          simp only [Rule.check] at hok
          cases hco : coerceVal fuel (.mkList nm cm rs) v with
          | error e =>
            rw [hco] at hok
            cases e <;>
              first
              | (split at hok <;> cases hok)
              | (simp at hok; first | rw [hok.1] | rw [← hok.1])
              | cases hok
          | ok vs =>
            rw [hco] at hok
            exact writeStoreL_ok_length fuel l n vs.1 vs.2 l1 sig h0 h1 hok

/-- C7: the claim says a failed append removes the None placeholder and
re-raises the validation error, leaving the items as they were.  The
rollback never happens: the slice assignment self[len(self) - 1:] = []
re-enters the ruled __setitem__, whose __fixkey__ leaves the slice
untouched and whose get_rule then calls self.rules.get(slice), which
raises TypeError (unhashable type) under Python 3, so the placeholder
survives — appending a non-coercible value to an engine-built empty
wildcard-int list leaves one raw None item, returns no key, and surfaces
the rollback TypeError instead of the validation error.  The success half
of the claim does hold: a coercible value lands at the new position,
whose lowercase base-36 rendering the call returns. -/
theorem c7_append_no_rollback :
    appendL 9 intList0 (Value.vStr "evil") =
      (.error (.typeError "unhashable type: slice"),
       CList.mk "container" "" true false intAnyRules [Value.vNil], false) ∧
    (appendL 9 intList0 (Value.vStr "7")).1 = .ok "0" ∧
    (appendL 9 intList0 (Value.vStr "7")).2.1.items = [Value.vInt 7] := by
  exact ⟨rfl, rfl, rfl⟩

/-! ## C6 -/

theorem strLeChars_total : ∀ a b : List Char,
    strLeChars a b = true ∨ strLeChars b a = true := by
  intro a
  induction a with
  | nil => intro b; left; rfl
  | cons c cs ih =>
    intro b
    cases b with
    | nil => right; rfl
    | cons d ds =>
      by_cases h1 : c.toNat < d.toNat
      · left; simp [strLeChars, h1]
      · by_cases h2 : d.toNat < c.toNat
        · right; simp [strLeChars, h1, h2]
        · cases ih ds with
          | inl h => left; simp [strLeChars, h1, h2, h]
          | inr h => right; simp [strLeChars, h1, h2, h]

theorem strLeChars_trans : ∀ a b c : List Char,
    strLeChars a b = true → strLeChars b c = true → strLeChars a c = true := by
  intro a
  induction a with
  | nil => intro b c _ _; rfl
  | cons x xs ih =>
    intro b c hab hbc
    cases b with
    | nil => simp [strLeChars] at hab
    | cons y ys =>
      cases c with
      | nil => simp [strLeChars] at hbc
      | cons z zs =>
        simp only [strLeChars] at hab hbc ⊢
        by_cases hxy : x.toNat < y.toNat <;> by_cases hyx : y.toNat < x.toNat <;>
          by_cases hyz : y.toNat < z.toNat <;> by_cases hzy : z.toNat < y.toNat <;>
          by_cases hxz : x.toNat < z.toNat <;> by_cases hzx : z.toNat < x.toNat <;>
          simp_all <;>
          first
          | omega
          | exact ih ys zs hab hbc
          | exact Or.inr (ih ys zs hab hbc)

/-- The element predicate of the numeric sort theorem: the var parses in
base 36. -/
def numItem (i : String × String) : Prop :=
  (pyIntOfStr 36 i.1).isSome = true

theorem itemLe_total_num (a b : String × String)
    (ha : numItem a) (hb : numItem b) :
    itemLe a b = true ∨ itemLe b a = true := by
  obtain ⟨m, hm⟩ := Option.isSome_iff_exists.mp ha
  obtain ⟨n, hn⟩ := Option.isSome_iff_exists.mp hb
  simp only [itemLe, itemKey, hm, hn, strLeB]
  rcases lt_trichotomy m n with h | h | h
  · left; simp [h]
  · subst h
    cases strLeChars_total a.2.data b.2.data with
    | inl hs => left; simp [hs]
    | inr hs => right; simp [hs]
  · right; simp [h]

theorem itemLe_trans_num (a b c : String × String)
    (ha : numItem a) (hb : numItem b) (hc : numItem c)
    (hab : itemLe a b = true) (hbc : itemLe b c = true) :
    itemLe a c = true := by
  obtain ⟨m, hm⟩ := Option.isSome_iff_exists.mp ha
  obtain ⟨n, hn⟩ := Option.isSome_iff_exists.mp hb
  obtain ⟨p, hp⟩ := Option.isSome_iff_exists.mp hc
  simp only [itemLe, itemKey, hm, hn, hp, strLeB, Bool.or_eq_true,
    Bool.and_eq_true, decide_eq_true_eq, beq_iff_eq] at hab hbc ⊢
  rcases hab with hab | ⟨hab1, hab2⟩ <;> rcases hbc with hbc | ⟨hbc1, hbc2⟩
  · left; omega
  · left; omega
  · left; omega
  · right
    exact ⟨by omega, strLeChars_trans _ _ _ hab2 hbc2⟩

theorem pairwise_orderedInsert {α : Type _} (le : α → α → Bool) (P : α → Prop)
    (total : ∀ x y, P x → P y → le x y = true ∨ le y x = true)
    (htrans : ∀ x y z, P x → P y → P z →
      le x y = true → le y z = true → le x z = true)
    (x : α) (hx : P x) :
    ∀ l, (∀ y ∈ l, P y) → l.Pairwise (fun a b => le a b = true) →
      (List.orderedInsert (fun a b => le a b = true) x l).Pairwise
        (fun a b => le a b = true) := by
  intro l
  induction l with
  | nil => intro _ _; simp
  | cons y ys ih =>
    intro hall hp
    rw [List.orderedInsert]
    split
    · rename_i hxy
      refine List.pairwise_cons.mpr ⟨?_, hp⟩
      intro z hz
      rcases List.mem_cons.mp hz with rfl | hz
      · exact hxy
      · exact htrans x y z hx (hall y (by simp)) (hall z (by simp [hz])) hxy
          ((List.pairwise_cons.mp hp).1 z hz)
    · rename_i hxy
      have hyx : le y x = true := by
        cases total x y hx (hall y (by simp)) with
        | inl h => exact absurd h hxy
        | inr h => exact h
      refine List.pairwise_cons.mpr ⟨?_, ?_⟩
      · intro z hz
        rw [List.mem_orderedInsert] at hz
        rcases hz with rfl | hz
        · exact hyx
        · exact (List.pairwise_cons.mp hp).1 z hz
      · exact ih (fun z hz => hall z (by simp [hz])) (List.pairwise_cons.mp hp).2

theorem pairwise_insSortBy {α : Type _} (le : α → α → Bool) (P : α → Prop)
    (total : ∀ x y, P x → P y → le x y = true ∨ le y x = true)
    (htrans : ∀ x y z, P x → P y → P z →
      le x y = true → le y z = true → le x z = true) :
    ∀ l : List α, (∀ y ∈ l, P y) →
      (insSortBy le l).Pairwise (fun a b => le a b = true) := by
  intro l
  induction l with
  | nil => intro _; simp [insSortBy]
  | cons x xs ih =>
    intro hall
    have hmem : ∀ y ∈ insSortBy le xs, P y := by
      intro y hy
      have := (List.perm_insertionSort (fun a b => le a b = true) xs).mem_iff.mp hy
      exact hall y (by simp [this])
    exact pairwise_orderedInsert le P total htrans x (hall x (by simp))
      (insSortBy le xs) hmem (ih (fun y hy => hall y (by simp [hy])))

/-- C6 counterexample: sorting the keys 2, 10, a applies them in the
order 2, a, 10 — the letter a is itself a base-36 numeral (ten), so it
sorts between 2 and 10 (thirty-six), not after the numeric keys as the
claim states. -/
theorem c6_counterexample :
    pySortItems [("2", "x"), ("10", "y"), ("a", "z")] =
      .ok [("2", "x"), ("a", "z"), ("10", "y")] ∧
    pyIntOfStr 36 "a" = some 10 ∧ pyIntOfStr 36 "10" = some 36 ∧
    [("2", "x"), ("a", "z"), ("10", "y")] ≠
      [("2", "x"), ("10", "y"), ("a", "z")] := by
  refine ⟨rfl, rfl, rfl, by decide⟩

/-- C6 amended: within one parsed section, when every key parses as base
36 (which includes purely alphabetic keys such as a), the keys are applied
in ascending base-36 numeric order: the sort succeeds and its output is a
permutation of the items that is pairwise ordered by the parsed values.
A section mixing parseable and unparseable keys instead raises TypeError
from the Python 3 sort. -/
theorem c6_parse_order (items : List (String × String))
    (hall : ∀ i ∈ items, (pyIntOfStr 36 i.1).isSome = true) :
    ∃ out, pySortItems items = .ok out ∧ List.Perm out items ∧
      out.Pairwise (fun a b => ∀ m n, pyIntOfStr 36 a.1 = some m →
        pyIntOfStr 36 b.1 = some n → m ≤ n) := by
  have hnostr : items.any (fun i => (pyIntOfStr 36 i.1).isNone) = false := by
    rw [List.any_eq_false]
    intro i hi
    have := hall i hi
    cases h : pyIntOfStr 36 i.1 with
    | none => rw [h] at this; cases this
    | some m => simp
  refine ⟨insSortBy itemLe items, ?_, List.perm_insertionSort _ items, ?_⟩
  · unfold pySortItems
    rw [hnostr]
    simp
  · have hP := pairwise_insSortBy itemLe numItem itemLe_total_num
      itemLe_trans_num items hall
    refine hP.imp_of_mem ?_
    intro a b hma hmb hle m n hm hn
    simp only [itemLe, itemKey, hm, hn, Bool.or_eq_true, Bool.and_eq_true,
      decide_eq_true_eq, beq_iff_eq] at hle
    rcases hle with h | ⟨h, _⟩ <;> omega

theorem c6_parse_order_witness :
    pySortItems [("2", "x"), ("10", "y"), ("a", "z")] =
      .ok [("2", "x"), ("a", "z"), ("10", "y")] ∧
    ([("2", "x"), ("a", "z"), ("10", "y")] : List (String × String)).Pairwise
      (fun a b => ∀ m n, pyIntOfStr 36 a.1 = some m →
        pyIntOfStr 36 b.1 = some n → m ≤ n) := by
  obtain ⟨out, h1, _, h3⟩ :=
    c6_parse_order [("2", "x"), ("10", "y"), ("a", "z")] (by decide)
  have h2 : (Except.ok out : Except PyErr (List (String × String))) =
      .ok [("2", "x"), ("a", "z"), ("10", "y")] := h1.symm.trans rfl
  injection h2 with h2
  subst h2
  exact ⟨h1, h3⟩

/-! ## C8 -/

theorem changed_setStore (d : CDict) (st : List (String × Value)) :
    (d.setStore st).changed = d.changed := by cases d; rfl

theorem changed_setChanged (d : CDict) (b : Bool) :
    (d.setChanged b).changed = b := by cases d; rfl

theorem changed_setRules (d : CDict) (rs : List (String × Rule)) :
    (d.setRules rs).changed = d.changed := by cases d; rfl

theorem selfBound_setStore (d : CDict) (st : List (String × Value)) :
    (d.setStore st).selfBound = d.selfBound := by cases d; rfl

theorem lchanged_setChanged (l : CList) (b : Bool) :
    (l.setChanged b).changed = b := by cases l; rfl

theorem lchanged_setRules (l : CList) (rs : List (String × Rule)) :
    (l.setRules rs).changed = l.changed := by cases l; rfl

theorem absorbD_sig_selfBound (d : CDict) (sig : Bool)
    (hsb : d.selfBound = true) : (absorbD d sig).2 = false := by
  unfold absorbD
  cases sig <;> simp [hsb]

theorem absorbD_changed_mono (d : CDict) (sig : Bool)
    (hc : d.changed = true) : (absorbD d sig).1.changed = true := by
  unfold absorbD
  split
  · rw [changed_setChanged]
  · exact hc

/-- One walk through the branches of setItemD, yielding the three facts
the watcher claim needs: a selfBound container never emits a signal, the
changed flag is monotone, and a successful non-locked write on a
selfBound container either sets its flag or (the silently-ignored write)
leaves the container untouched. -/
theorem setItemD_cases (fuel : Nat) (d : CDict) (key : String) (v : Value)
    (d1 : CDict) (sig : Bool)
    (hok : setItemD fuel d key v = .ok (d1, sig)) :
    (d.selfBound = true → sig = false) ∧
    (d.changed = true → d1.changed = true) ∧
    (d.selfBound = true → (∀ r, getRuleD d key = .ok r → r.check ≠ .cFalse) →
      (d1.changed = true ∨ d1 = d)) := by
  cases fuel with
  | zero => simp [setItemD] at hok
  | succ fuel =>
    rw [setItemD] at hok
    simp only [bind, Except.bind] at hok
    cases hrl : getRuleD d key with
    | error e => rw [hrl] at hok; cases hok
    | ok r =>
      rw [hrl] at hok
      dsimp only at hok
      cases hchk : r.check with
      | cTrue =>
        rw [hchk] at hok
        try dsimp only at hok
        unfold writeStoreD at hok
        by_cases hsb : d.selfBound = true
        · rw [if_pos hsb] at hok
          injection hok with hok
          injection hok with h1 h2
          refine ⟨fun _ => h2.symm, fun _ => ?_, fun _ _ => Or.inl ?_⟩ <;>
            rw [← h1, changed_setChanged]
        · rw [if_neg hsb] at hok
          injection hok with hok
          injection hok with h1 h2
          refine ⟨fun h => absurd h hsb, fun hc => ?_, fun h _ => absurd h hsb⟩
          rw [← h1, changed_setStore]; exact hc
      | cFalse =>
        rw [hchk] at hok
        try dsimp only at hok
        cases hgi : getItemD d (pyLower key) with
        | error e => rw [hgi] at hok; cases hok
        | ok stored =>
          rw [hgi] at hok
          dsimp only at hok
          split at hok
          · cases hms : mergeStored fuel stored ((entriesOfV v).getD []) with
            | error e => rw [hms] at hok; cases hok
            | ok m =>
              rw [hms] at hok
              dsimp only at hok
              injection hok with hok
              have h1 := congrArg Prod.fst hok
              have h2 := congrArg Prod.snd hok
              simp only at h1 h2
              refine ⟨fun hsb => ?_, fun hc => ?_, fun _ hr => ?_⟩
              · rw [← h2]
                exact absorbD_sig_selfBound _ _ (by rw [selfBound_setStore]; exact hsb)
              · rw [← h1]
                exact absorbD_changed_mono _ _ (by rw [changed_setStore]; exact hc)
              · exact absurd hchk (hr r rfl)
          · cases hok
      | enum opts =>
        rw [hchk] at hok
        try dsimp only at hok
        split at hok
        · unfold writeStoreD at hok
          by_cases hsb : d.selfBound = true
          · rw [if_pos hsb] at hok
            injection hok with hok
            injection hok with h1 h2
            refine ⟨fun _ => h2.symm, fun _ => ?_, fun _ _ => Or.inl ?_⟩ <;>
              rw [← h1, changed_setChanged]
          · rw [if_neg hsb] at hok
            injection hok with hok
            injection hok with h1 h2
            refine ⟨fun h => absurd h hsb, fun hc => ?_, fun h _ => absurd h hsb⟩
            rw [← h1, changed_setStore]; exact hc
        · cases hok
      | cSym s => rw [hchk] at hok; try dsimp only at hok
                  cases hok
      | nestedRules rs => rw [hchk] at hok; try dsimp only at hok
                          cases hok
      | co t =>
        rw [hchk] at hok
        try dsimp only at hok
        cases hco : coerceVal fuel (.co t) v with
        | error e =>
          rw [hco] at hok
          cases e <;>
            first
            | (split at hok <;> cases hok)
            | (injection hok with hok; injection hok with h1 h2;
               exact ⟨fun _ => h2.symm, fun hc => h1 ▸ hc, fun _ _ => Or.inr h1.symm⟩)
            | cases hok
        | ok vs =>
          obtain ⟨v2, sc⟩ := vs
          rw [hco] at hok
          unfold writeStoreD at hok
          try dsimp only at hok
          by_cases hsb : d.selfBound = true
          · rw [if_pos hsb] at hok
            injection hok with hok
            injection hok with h1 h2
            refine ⟨fun _ => h2.symm, fun _ => ?_, fun _ _ => Or.inl ?_⟩ <;>
              rw [← h1, changed_setChanged]
          · rw [if_neg hsb] at hok
            injection hok with hok
            injection hok with h1 h2
            refine ⟨fun h => absurd h hsb, fun hc => ?_, fun h _ => absurd h hsb⟩
            rw [← h1, changed_setStore]; exact hc
      | mkDict nm cm rs =>
        rw [hchk] at hok
        try dsimp only at hok
        cases hco : coerceVal fuel (.mkDict nm cm rs) v with
        | error e =>
          rw [hco] at hok
          cases e <;>
            first
            | (split at hok <;> cases hok)
            | (injection hok with hok; injection hok with h1 h2;
               exact ⟨fun _ => h2.symm, fun hc => h1 ▸ hc, fun _ _ => Or.inr h1.symm⟩)
            | cases hok
        | ok vs =>
          obtain ⟨v2, sc⟩ := vs
          rw [hco] at hok
          unfold writeStoreD at hok
          try dsimp only at hok
          by_cases hsb : d.selfBound = true
          · rw [if_pos hsb] at hok
            injection hok with hok
            injection hok with h1 h2
            refine ⟨fun _ => h2.symm, fun _ => ?_, fun _ _ => Or.inl ?_⟩ <;>
              rw [← h1, changed_setChanged]
          · rw [if_neg hsb] at hok
            injection hok with hok
            injection hok with h1 h2
            refine ⟨fun h => absurd h hsb, fun hc => ?_, fun h _ => absurd h hsb⟩
            rw [← h1, changed_setStore]; exact hc
      | mkList nm cm rs =>
        rw [hchk] at hok
        try dsimp only at hok
        cases hco : coerceVal fuel (.mkList nm cm rs) v with
        | error e =>
          rw [hco] at hok
          cases e <;>
            first
            | (split at hok <;> cases hok)
            | (injection hok with hok; injection hok with h1 h2;
               exact ⟨fun _ => h2.symm, fun hc => h1 ▸ hc, fun _ _ => Or.inr h1.symm⟩)
            | cases hok
        | ok vs =>
          obtain ⟨v2, sc⟩ := vs
          rw [hco] at hok
          unfold writeStoreD at hok
          try dsimp only at hok
          by_cases hsb : d.selfBound = true
          · rw [if_pos hsb] at hok
            injection hok with hok
            injection hok with h1 h2
            refine ⟨fun _ => h2.symm, fun _ => ?_, fun _ _ => Or.inl ?_⟩ <;>
              rw [← h1, changed_setChanged]
          · rw [if_neg hsb] at hok
            injection hok with hok
            injection hok with h1 h2
            refine ⟨fun h => absurd h hsb, fun hc => ?_, fun h _ => absurd h hsb⟩
            rw [← h1, changed_setStore]; exact hc

theorem setAtPathV_dict_noSig (fuel : Nat) (d : CDict) (path : List String)
    (k : String) (v : Value) (rt : Value) (sig : Bool)
    (hsb : d.selfBound = true)
    (hok : setAtPathV fuel (.vDict d) path k v = .ok (rt, sig)) :
    sig = false := by
  cases path with
  | nil =>
    rw [setAtPathV] at hok
    cases hset : setItemD fuel d k v with
    | error e => rw [hset] at hok; cases hok
    | ok p =>
      obtain ⟨d1, s1⟩ := p
      rw [hset] at hok
      simp only [Except.map] at hok
      injection hok with hok
      have h2 := congrArg Prod.snd hok
      simp only at h2
      rw [← h2]
      exact (setItemD_cases fuel d k v d1 s1 hset).1 hsb
  | cons p rest =>
    rw [setAtPathV] at hok
    simp only [bind, Except.bind] at hok
    cases hg : containerGetItem (.vDict d) p with
    | error e => rw [hg] at hok; cases hok
    | ok c =>
      rw [hg] at hok
      dsimp only at hok
      cases hrec : setAtPathV fuel c rest k v with
      | error e => rw [hrec] at hok; cases hok
      | ok q =>
        obtain ⟨c1, s1⟩ := q
        rw [hrec] at hok
        dsimp only at hok
        injection hok with hok
        have h2 := congrArg Prod.snd hok
        simp only at h2
        rw [← h2]
        exact absorbD_sig_selfBound _ _ (by rw [selfBound_setStore]; exact hsb)

theorem setAtPathV_dict_mono (fuel : Nat) (d : CDict) (path : List String)
    (k : String) (v : Value) (rt : Value) (sig : Bool)
    (hok : setAtPathV fuel (.vDict d) path k v = .ok (rt, sig))
    (hc : d.changed = true) : vChanged rt = true := by
  cases path with
  | nil =>
    rw [setAtPathV] at hok
    cases hset : setItemD fuel d k v with
    | error e => rw [hset] at hok; cases hok
    | ok p =>
      obtain ⟨d1, s1⟩ := p
      rw [hset] at hok
      simp only [Except.map] at hok
      injection hok with hok
      have h1 := congrArg Prod.fst hok
      simp only at h1
      rw [← h1]
      exact (setItemD_cases fuel d k v d1 s1 hset).2.1 hc
  | cons p rest =>
    rw [setAtPathV] at hok
    simp only [bind, Except.bind] at hok
    cases hg : containerGetItem (.vDict d) p with
    | error e => rw [hg] at hok; cases hok
    | ok c =>
      rw [hg] at hok
      dsimp only at hok
      cases hrec : setAtPathV fuel c rest k v with
      | error e => rw [hrec] at hok; cases hok
      | ok q =>
        obtain ⟨c1, s1⟩ := q
        rw [hrec] at hok
        dsimp only at hok
        injection hok with hok
        have h1 := congrArg Prod.fst hok
        simp only at h1
        rw [← h1]
        show (absorbD _ _).1.changed = true
        exact absorbD_changed_mono _ _ (by rw [changed_setStore]; exact hc)

theorem resetD_changed (fuel : Nat) (d : CDict) (r b : Bool) (d2 : CDict)
    (h : resetD fuel d r b = .ok d2) : d2.changed = d.changed := by
  cases fuel with
  | zero => simp [resetD] at h
  | succ fuel =>
    rw [resetD] at h
    try dsimp only at h
    have hch : (if r then d.setRules [] else d).changed = d.changed := by
      split
      · rw [changed_setRules]
      · rfl
    split at h
    · simp only [bind, Except.bind] at h
      cases hrs : resetStore fuel (if r then d.setRules [] else d).store r b with
      | error e => rw [hrs] at h; cases h
      | ok st =>
        rw [hrs] at h
        dsimp only at h
        injection h with h
        rw [← h, changed_setStore]
        exact hch
    · injection h with h
      rw [← h]
      exact hch

theorem resetL_changed (l : CList) (r b : Bool) :
    (resetL l r b).changed = l.changed := by
  unfold resetL
  split
  · rw [lchanged_setRules]
  · rfl

/-- C8 counterexample: a write one level down the default tree sets the
root changed flag but leaves the mutated sub-container's own changed flag
false, although the sub-container carries the default write-watcher (a
method bound to the root); so the claim, read for every container in the
tree, is false. -/
theorem c8_counterexample :
    ((mkRoot 9 sysRules).bind (fun d =>
      setAtPathV 9 (.vDict d) ["sys"] "fd_cache_size" (.vStr "42"))).map
      (fun r =>
        (vChanged r.1,
         (match r.1 with
          | .vDict d1 =>
            (match d1.store.lookup "sys" with
             | some w => (vChanged w, vSelfBound w)
             | none => (true, true))
          | _ => (true, true)),
         getAtPathV r.1 ["sys", "fd_cache_size"])) =
      .ok (true, (false, false), .ok (.vInt 42)) := rfl

/-- C8 amended: the changed flag the default write-watcher sets belongs
to the container the watcher was bound to at construction — the
standalone-constructed (selfBound) root — not to every ancestor of the
write: a successful non-locked write on a selfBound container either sets
its flag or is the silently-ignored write that leaves it untouched; a
write through a path below a selfBound root never lets the watcher signal
escape, and once the flag is true no set, path-set or reset operation
clears it (descendant containers' own flags are simply never set, see the
counterexample). -/
theorem c8_watcher_flag :
    (∀ fuel (d : CDict) key v d1 sig,
      setItemD fuel d key v = .ok (d1, sig) → d.selfBound = true →
        (sig = false ∧ (d.changed = true → d1.changed = true) ∧
          ((∀ r, getRuleD d key = .ok r → r.check ≠ .cFalse) →
            (d1.changed = true ∨ d1 = d)))) ∧
    (∀ fuel (d : CDict) path key v rt sig,
      setAtPathV fuel (.vDict d) path key v = .ok (rt, sig) →
        ((d.selfBound = true → sig = false) ∧
         (d.changed = true → vChanged rt = true))) ∧
    (∀ fuel (d : CDict) r b d2, resetD fuel d r b = .ok d2 →
      d2.changed = d.changed) ∧
    (∀ (l : CList) r b, (resetL l r b).changed = l.changed) := by
  refine ⟨?_, ?_, ?_, ?_⟩
  · intro fuel d key v d1 sig hok hsb
    have h := setItemD_cases fuel d key v d1 sig hok
    exact ⟨h.1 hsb, h.2.1, fun hr => h.2.2 hsb hr⟩
  · intro fuel d path key v rt sig hok
    exact ⟨fun hsb => setAtPathV_dict_noSig fuel d path key v rt sig hsb hok,
           fun hc => setAtPathV_dict_mono fuel d path key v rt sig hok hc⟩
  · intro fuel d r b d2 h
    exact resetD_changed fuel d r b d2 h
  · intro l r b
    exact resetL_changed l r b

theorem c8_watcher_flag_witness :
    (setItemD 9 flatRoot "name" (Value.vStr "n") = .ok (flatRootSet, false) ∧
      flatRootSet.changed = true) ∧
    (setAtPathV 9 (.vDict (sysRoot.setChanged true)) ["sys"] "fd_cache_size"
        (.vStr "42") = .ok (sysTreeSet, false) ∧
      vChanged sysTreeSet = true) ∧
    (resetD 9 (sysRoot.setChanged true) true true =
        .ok (CDict.mk "config" "" true true []
          [("sys", .vDict (CDict.mk "config/sys" "System" false false [] []))]) ∧
      (CDict.mk "config" "" true true []
          [("sys", .vDict (CDict.mk "config/sys" "System" false false [] []))]).changed
        = true) ∧
    (resetL (intList0.setChanged true) true true).changed = true := by
  obtain ⟨h1, h2, h3, h4⟩ := c8_watcher_flag
  refine ⟨⟨rfl, ?_⟩, ⟨rfl, ?_⟩, ⟨rfl, ?_⟩, ?_⟩
  · have ha := h1 9 flatRoot "name" (Value.vStr "n") flatRootSet false rfl rfl
    have hchk : ∀ r, getRuleD flatRoot "name" = .ok r → r.check ≠ .cFalse := by
      intro r hr
      have hr2 : (Except.ok (Rule.mk "A name" (.co .cStr) (.v (.vStr "x")) []) :
          Except PyErr Rule) = .ok r := hr
      injection hr2 with hr2
      subst hr2
      intro hcf
      cases hcf
    rcases ha.2.2 hchk with hA | hA
    · exact hA
    · have hB := congrArg CDict.changed hA
      exact absurd hB (by intro hB2; cases hB2)
  · have hb := h2 9 (sysRoot.setChanged true) ["sys"] "fd_cache_size"
      (.vStr "42") sysTreeSet false rfl
    exact hb.2 rfl
  · have hcq := h3 9 (sysRoot.setChanged true) true true
      (CDict.mk "config" "" true true []
        [("sys", .vDict (CDict.mk "config/sys" "System" false false [] []))]) rfl
    rw [hcq]; rfl
  · rw [h4 (intList0.setChanged true) true true]; rfl

/-! ## C2 -/

/-- Warning/okay bookkeeping of the section-path loop: the returned okay
flag is true exactly when it came in true and the loop logged nothing. -/
theorem parsePath_spec (fuel : Nat) (source sect : String) :
    ∀ (parts : List String) (root : Value) (path : List String) (okay : Bool)
      (warns : List String) r1 p1 o1 w1,
      parsePath fuel source sect root path parts okay warns =
        .ok (r1, p1, o1, w1) →
      ∃ δ, w1 = warns ++ δ ∧ (o1 = true ↔ (okay = true ∧ δ = [])) := by
  intro parts
  induction parts with
  | nil =>
    intro root path okay warns r1 p1 o1 w1 h
    rw [parsePath] at h
    injection h with h
    have h1 := congrArg (fun q => q.2.2.1) h
    have h2 := congrArg (fun q => q.2.2.2) h
    simp only at h1 h2
    refine ⟨[], by simp [← h2], ?_⟩
    rw [← h1]
    simp
  | cons part rest ih =>
    intro root path okay warns r1 p1 o1 w1 h
    rw [parsePath] at h
    simp only [bind, Except.bind] at h
    cases hg : getAtPathV root path with
    | error e => rw [hg] at h; cases h
    | ok cfg =>
      rw [hg] at h
      dsimp only at h
      cases hh : containerHasPart cfg part with
      | error e => rw [hh] at h; cases h
      | ok has =>
        rw [hh] at h
        dsimp only at h
        cases has with
        | true =>
          rw [if_pos rfl] at h
          exact ih root (path ++ [part]) okay warns r1 p1 o1 w1 h
        | false =>
          rw [if_neg (by simp)] at h
          cases ha : containerHasAnyRule cfg with
          | error e => rw [ha] at h; cases h
          | ok hasAny =>
            rw [ha] at h
            dsimp only at h
            cases hasAny with
            | true =>
              rw [if_pos rfl] at h
              cases hset : setAtPathV fuel root path part (.vMap []) with
              | error e => rw [hset] at h; cases h
              | ok q =>
                obtain ⟨root2, s2⟩ := q
                rw [hset] at h
                dsimp only at h
                exact ih root2 (path ++ [part]) okay warns r1 p1 o1 w1 h
            | false =>
              rw [if_neg (by simp)] at h
              obtain ⟨δ, hw, hiff⟩ :=
                ih root path false (warns ++ ["Invalid (" ++ source ++
                  "): section " ++ sect ++ " does not exist"]) r1 p1 o1 w1 h
              refine ⟨("Invalid (" ++ source ++ "): section " ++ sect ++
                " does not exist") :: δ, by rw [hw, List.append_assoc]; rfl, ?_⟩
              constructor
              · intro ho
                exact absurd (hiff.mp ho).1 (by simp)
              · intro hc
                exact absurd hc.2 (by simp)

/-- Same bookkeeping for the per-key loop: every caught failure logs one
message and clears the okay flag; other keys continue. -/
theorem parseItems_spec (fuel : Nat) (source sect : String) :
    ∀ (items : List (String × String)) (root : Value) (path : List String)
      (okay : Bool) (warns : List String) r1 o1 w1,
      parseItems fuel source sect root path items okay warns = .ok (r1, o1, w1) →
      ∃ δ, w1 = warns ++ δ ∧ (o1 = true ↔ (okay = true ∧ δ = [])) := by
  intro items
  induction items with
  | nil =>
    intro root path okay warns r1 o1 w1 h
    rw [parseItems] at h
    injection h with h
    have h1 := congrArg (fun q => q.2.1) h
    have h2 := congrArg (fun q => q.2.2) h
    simp only at h1 h2
    refine ⟨[], by simp [← h2], ?_⟩
    rw [← h1]
    simp
  | cons kv rest ih =>
    obtain ⟨var, val⟩ := kv
    intro root path okay warns r1 o1 w1 h
    rw [parseItems] at h
    cases hset : setAtPathV fuel root path var (.vStr val) with
    | ok q =>
      obtain ⟨root2, s2⟩ := q
      rw [hset] at h
      exact ih root2 path okay warns r1 o1 w1 h
    | error e =>
      rw [hset] at h
      dsimp only at h
      by_cases hc : caughtByParse e = true
      · rw [if_pos hc] at h
        obtain ⟨δ, hw, hiff⟩ := ih root path false
          (warns ++ ["Invalid (" ++ source ++ "): section " ++ sect ++
            ", variable " ++ var ++ "=" ++ val]) r1 o1 w1 h
        refine ⟨("Invalid (" ++ source ++ "): section " ++ sect ++
          ", variable " ++ var ++ "=" ++ val) :: δ, by rw [hw, List.append_assoc]; rfl, ?_⟩
        constructor
        · intro ho
          exact absurd (hiff.mp ho).1 (by simp)
        · intro hc2
          exact absurd hc2.2 (by simp)
      · rw [if_neg hc] at h
        cases h

/-- Bookkeeping for the whole section loop. -/
theorem parseSections_spec (fuel : Nat) (source : String) :
    ∀ (secs : List (String × List (String × String))) (root : Value)
      (allOkay : Bool) (warns : List String) root1 ok1 warns1,
      parseSections fuel source root secs allOkay warns = .ok (root1, ok1, warns1) →
      (∃ δ, warns1 = warns ++ δ) ∧
      (ok1 = true ↔ (allOkay = true ∧ warns1 = warns)) := by
  intro secs
  induction secs with
  | nil =>
    intro root allOkay warns root1 ok1 warns1 h
    rw [parseSections] at h
    injection h with h
    have h1 := congrArg (fun q => q.2.1) h
    have h2 := congrArg (fun q => q.2.2) h
    simp only at h1 h2
    refine ⟨⟨[], by simp [← h2]⟩, ?_⟩
    rw [← h1]
    constructor
    · intro ho; exact ⟨ho, h2.symm⟩
    · intro hc; exact hc.1
  | cons sec rest ih =>
    obtain ⟨sect, items⟩ := sec
    intro root allOkay warns root1 ok1 warns1 h
    rw [parseSections] at h
    simp only [bind, Except.bind] at h
    cases hp : parsePath fuel source sect root []
        ((splitOnChar '/' ((splitOnChar ':' sect).headD "")).drop 1) true warns with
    | error e => rw [hp] at h; cases h
    | ok q1 =>
      obtain ⟨r1, path, okay, w1⟩ := q1
      rw [hp] at h
      dsimp only at h
      cases hs : pySortItems (if okay = true then items else []) with
      | error e => rw [hs] at h; cases h
      | ok sorted =>
        rw [hs] at h
        dsimp only at h
        cases hi : parseItems fuel source sect r1 path sorted true w1 with
        | error e => rw [hi] at h; cases h
        | ok q2 =>
          obtain ⟨r2, okay2, w2⟩ := q2
          rw [hi] at h
          dsimp only at h
          obtain ⟨⟨δ3, hδ3⟩, hiff⟩ := ih r2 (allOkay && okay && okay2) w2
            root1 ok1 warns1 h
          obtain ⟨δ1, hδ1, hiff1⟩ := parsePath_spec fuel source sect _ root []
            true warns r1 path okay w1 hp
          obtain ⟨δ2, hδ2, hiff2⟩ := parseItems_spec fuel source sect sorted r1
            path true w1 r2 okay2 w2 hi
          refine ⟨⟨δ1 ++ δ2 ++ δ3, by rw [hδ3, hδ2, hδ1]; simp⟩, ?_⟩
          constructor
          · intro ho
            obtain ⟨hall, hw⟩ := hiff.mp ho
            rw [Bool.and_eq_true, Bool.and_eq_true] at hall
            obtain ⟨⟨hA, hok⟩, hok2⟩ := hall
            have hd1 : δ1 = [] := (hiff1.mp hok).2
            have hd2 : δ2 = [] := (hiff2.mp hok2).2
            refine ⟨hA, ?_⟩
            rw [hw, hδ2, hδ1, hd1, hd2]
            simp
          · intro hc
            obtain ⟨hA, hw⟩ := hc
            have hlen := congrArg List.length hw
            rw [hδ3, hδ2, hδ1] at hlen
            simp only [List.length_append] at hlen
            have hd1 : δ1 = [] := List.eq_nil_of_length_eq_zero (by omega)
            have hd2 : δ2 = [] := List.eq_nil_of_length_eq_zero (by omega)
            have hd3 : δ3 = [] := List.eq_nil_of_length_eq_zero (by omega)
            apply hiff.mpr
            have hok : okay = true := hiff1.mpr ⟨rfl, hd1⟩
            have hok2 : okay2 = true := hiff2.mpr ⟨rfl, hd2⟩
            refine ⟨?_, ?_⟩
            · rw [Bool.and_eq_true, Bool.and_eq_true]
              exact ⟨⟨hA, hok⟩, hok2⟩
            · rw [hδ3, hd3, hδ2, hd2, hδ1, hd1]
              simp

/-- C2: the claim says parse_config parses best-effort, logging and
skipping bad settings and returning a boolean verdict.  In fact it never
returns at all: its prologue parser.readfp(io.BytesIO(str(data))) raises
TypeError under Python 3 for every input — str(data) is a str even when
data is bytes, and io.BytesIO rejects str — so not even the clean parse of
the docstring doctest (which asserts a True return and an applied value)
can succeed.  The logging and flag bookkeeping the claim describes is
characterised for the unreachable section walk by parsePath_spec,
parseItems_spec and parseSections_spec above. -/
theorem c2_parse_never_returns (fuel : Nat) (d : CDict) (file : IniFile)
    (src : String) :
    parseConfig fuel d file src =
      .error (.typeError "a bytes-like object is required, not str") := rfl

/-! ## C1: decimal print/parse inverse -/

theorem digitVal_dec (m : Nat) (h : m < 10) :
    digitVal 10 (Char.ofNat (48 + m)) = some m := by
  interval_cases m <;> decide

theorem decChar_ne_underscore (m : Nat) (h : m < 10) :
    Char.ofNat (48 + m) ≠ '_' := by
  interval_cases m <;> decide

theorem decChar_not_space (m : Nat) (h : m < 10) :
    isPySpace (Char.ofNat (48 + m)) = false := by
  interval_cases m <;> decide

theorem decChar_ne_plus (m : Nat) (h : m < 10) :
    Char.ofNat (48 + m) ≠ '+' := by
  interval_cases m <;> decide

theorem decChar_ne_minus (m : Nat) (h : m < 10) :
    Char.ofNat (48 + m) ≠ '-' := by
  interval_cases m <;> decide

/-- Every character the decimal renderer emits is a digit. -/
theorem natDecCharsAux_digits :
    ∀ fuel n, n < fuel → ∀ c ∈ natDecCharsAux fuel n,
      ∃ m, m < 10 ∧ c = Char.ofNat (48 + m) := by
  intro fuel
  induction fuel with
  | zero => intro n h; omega
  | succ f ih =>
    intro n h c hc
    rw [natDecCharsAux] at hc
    by_cases h10 : n < 10
    · rw [if_pos h10] at hc
      rcases List.mem_singleton.mp hc with rfl
      exact ⟨n, h10, rfl⟩
    · rw [if_neg h10] at hc
      rcases List.mem_append.mp hc with h1 | h2
      · have hd := Nat.div_lt_self (show 0 < n by omega) (show (1:Nat) < 10 by omega)
        exact ih (n / 10) (by omega) c h1
      · rcases List.mem_singleton.mp h2 with rfl
        exact ⟨n % 10, Nat.mod_lt _ (by omega), rfl⟩

theorem natDecCharsAux_ne_nil (fuel n : Nat) (h : n < fuel) :
    natDecCharsAux fuel n ≠ [] := by
  cases fuel with
  | zero => omega
  | succ f =>
    rw [natDecCharsAux]
    by_cases h10 : n < 10
    · rw [if_pos h10]; simp
    · rw [if_neg h10]; simp

/-- Appending one digit multiplies the parsed value by ten and adds it. -/
theorem digitsVal_append_digit :
    ∀ (bound : Nat) (xs : List Char), xs.length ≤ bound → ∀ (acc v d : Nat), d < 10 →
      digitsVal 10 xs acc = some v →
      digitsVal 10 (xs ++ [Char.ofNat (48 + d)]) acc = some (v * 10 + d) := by
  intro bound
  induction bound with
  | zero =>
    intro xs hlen acc v d hd hv
    have : xs = [] := List.eq_nil_of_length_eq_zero (by omega)
    subst this
    rw [digitsVal.eq_def] at hv
    dsimp only at hv
    injection hv with hv
    subst hv
    rw [List.nil_append, digitsVal.eq_def]
    dsimp only
    rw [if_neg (decChar_ne_underscore d hd), digitVal_dec d hd]
    dsimp only
    rw [digitsVal.eq_def]
  | succ B ih =>
    intro xs hlen acc v d hd hv
    cases xs with
    | nil =>
      rw [digitsVal.eq_def] at hv
      dsimp only at hv
      injection hv with hv
      subst hv
      rw [List.nil_append, digitsVal.eq_def]
      dsimp only
      rw [if_neg (decChar_ne_underscore d hd), digitVal_dec d hd]
      dsimp only
      rw [digitsVal.eq_def]
    | cons x xt =>
      rw [digitsVal.eq_def] at hv
      dsimp only at hv
      rw [List.cons_append, digitsVal.eq_def]
      dsimp only
      by_cases hx : x = '_'
      · rw [if_pos hx] at hv ⊢
        cases xt with
        | nil => dsimp only at hv; exact Option.noConfusion hv
        | cons c2 rest2 =>
          dsimp only at hv
          rw [List.cons_append]
          dsimp only
          cases hdv : digitVal 10 c2 with
          | none =>
            rw [hdv] at hv; dsimp only at hv; exact Option.noConfusion hv
          | some dd =>
            rw [hdv] at hv
            dsimp only at hv
            dsimp only
            exact ih rest2 (by simp at hlen; omega) _ _ _ hd hv
      · rw [if_neg hx] at hv ⊢
        cases hdv : digitVal 10 x with
        | none =>
          rw [hdv] at hv; dsimp only at hv; exact Option.noConfusion hv
        | some dd =>
          rw [hdv] at hv
          dsimp only at hv
          dsimp only
          exact ih xt (by simp at hlen; omega) _ _ _ hd hv

theorem digitsVal_natDecCharsAux :
    ∀ fuel n acc, n < fuel →
      digitsVal 10 (natDecCharsAux fuel n) acc
        = some (acc * 10 ^ (natDecCharsAux fuel n).length + n) := by
  intro fuel
  induction fuel with
  | zero => intro n acc h; omega
  | succ f ih =>
    intro n acc h
    rw [natDecCharsAux]
    by_cases h10 : n < 10
    · rw [if_pos h10]
      rw [digitsVal.eq_def]
      dsimp only
      rw [if_neg (decChar_ne_underscore n h10), digitVal_dec n h10]
      dsimp only
      rw [digitsVal.eq_def]
      simp [pow_one]
    · rw [if_neg h10]
      have hdl := Nat.div_lt_self (show 0 < n by omega) (show (1:Nat) < 10 by omega)
      have h1 := ih (n / 10) acc (by omega)
      have h2 := digitsVal_append_digit (natDecCharsAux f (n / 10)).length _
        (le_refl _) _ _ (n % 10) (Nat.mod_lt _ (by omega)) h1
      rw [h2]
      congr 1
      rw [List.length_append]
      have key : (acc * 10 ^ (natDecCharsAux f (n / 10)).length + n / 10) * 10 + n % 10
          = acc * (10 ^ (natDecCharsAux f (n / 10)).length * 10)
            + (10 * (n / 10) + n % 10) := by ring
      rw [key, Nat.div_add_mod, ← pow_succ]
      norm_num

theorem pyIntCore_natDecChars (n : Nat) :
    pyIntCore 10 (natDecChars n) = some n := by
  have hne := natDecCharsAux_ne_nil (n + 1) n (by omega)
  have hdig := natDecCharsAux_digits (n + 1) n (by omega)
  have hval := digitsVal_natDecCharsAux (n + 1) n 0 (by omega)
  rw [natDecChars]
  cases hl : natDecCharsAux (n + 1) n with
  | nil => exact absurd hl hne
  | cons c rest =>
    rw [hl] at hval
    obtain ⟨m, hm, hc⟩ := hdig c (by rw [hl]; exact List.mem_cons_self _ _)
    subst hc
    rw [pyIntCore, digitVal_dec m hm]
    dsimp only
    rw [digitsVal.eq_def] at hval
    dsimp only at hval
    rw [if_neg (decChar_ne_underscore m hm), digitVal_dec m hm] at hval
    dsimp only at hval
    simpa using hval

theorem dropWhile_all_neg {p : Char → Bool} :
    ∀ l : List Char, (∀ c ∈ l, p c = false) → l.dropWhile p = l := by
  intro l h
  cases l with
  | nil => rfl
  | cons c rest =>
    rw [List.dropWhile_cons, h c (List.mem_cons_self _ _)]
    simp

theorem stripWS_all_neg (cs : List Char) (h : ∀ c ∈ cs, isPySpace c = false) :
    stripWS cs = cs := by
  unfold stripWS
  rw [dropWhile_all_neg cs h,
     dropWhile_all_neg cs.reverse (fun c hc => h c (List.mem_reverse.mp hc))]
  exact List.reverse_reverse cs

theorem pyIntOfStr_natDec (n : Nat) :
    pyIntOfStr 10 (natDec n) = some (n : Int) := by
  have hne := natDecCharsAux_ne_nil (n + 1) n (by omega)
  have hdig := natDecCharsAux_digits (n + 1) n (by omega)
  rw [natDec, pyIntOfStr]
  have hdata : (String.mk (natDecChars n)).data = natDecChars n := rfl
  rw [hdata]
  rw [stripWS_all_neg _ (by
    intro c hc
    rw [natDecChars] at hc
    obtain ⟨m, hm, hceq⟩ := hdig c hc
    subst hceq
    exact decChar_not_space m hm)]
  rw [natDecChars]
  cases hl : natDecCharsAux (n + 1) n with
  | nil => exact absurd hl hne
  | cons c rest =>
    obtain ⟨m, hm, hc⟩ := hdig c (by rw [hl]; exact List.mem_cons_self _ _)
    subst hc
    split
    · next heq => injection heq with h1 h2; exact absurd h1 (decChar_ne_plus m hm)
    · next heq => injection heq with h1 h2; exact absurd h1 (decChar_ne_minus m hm)
    · have hcore := pyIntCore_natDecChars n
      rw [natDecChars, hl] at hcore
      rw [hcore]
      rfl

theorem pyIntOfStr_intDec (z : Int) :
    pyIntOfStr 10 (intDec z) = some z := by
  rw [intDec]
  by_cases hz : z < 0
  · rw [if_pos hz]
    have hdig := natDecCharsAux_digits (z.natAbs + 1) z.natAbs (by omega)
    rw [pyIntOfStr]
    have hdata : (String.mk ('-' :: natDecChars z.natAbs)).data
        = '-' :: natDecChars z.natAbs := rfl
    rw [hdata]
    rw [stripWS_all_neg _ (by
      intro c hc
      rcases List.mem_cons.mp hc with rfl | hc2
      · decide
      · rw [natDecChars] at hc2
        obtain ⟨m, hm, hceq⟩ := hdig c hc2
        subst hceq
        exact decChar_not_space m hm)]
    show (pyIntCore 10 (natDecChars z.natAbs)).map (fun n => -(n : Int)) = some z
    rw [pyIntCore_natDecChars]
    show some (-(z.natAbs : Int)) = some z
    congr 1
    omega
  · rw [if_neg hz]
    rw [pyIntOfStr_natDec]
    congr 1
    omega

/-! ## C1: key hygiene and case folding -/

theorem keyClean_chars (s : String) (h : keyClean s = true) :
    ∀ c ∈ s.data,
      ((97 ≤ c.toNat ∧ c.toNat ≤ 122) ∨ (48 ≤ c.toNat ∧ c.toNat ≤ 57) ∨ c.toNat = 95) := by
  rw [keyClean, Bool.and_eq_true] at h
  intro c hc
  exact of_decide_eq_true (List.all_eq_true.mp h.2 c hc)

theorem charLower_fix (c : Char)
    (h : ((97 ≤ c.toNat ∧ c.toNat ≤ 122) ∨ (48 ≤ c.toNat ∧ c.toNat ≤ 57) ∨ c.toNat = 95)) :
    charLower c = c := by
  rw [charLower, if_neg (by omega : ¬ (65 ≤ c.toNat ∧ c.toNat ≤ 90))]

theorem map_id_of_fix {α : Type _} (f : α → α) :
    ∀ l : List α, (∀ a ∈ l, f a = a) → l.map f = l := by
  intro l h
  induction l with
  | nil => rfl
  | cons a t ih =>
    rw [List.map_cons, h a (List.mem_cons_self _ _),
       ih (fun x hx => h x (List.mem_cons_of_mem _ hx))]

theorem pyLower_fix (s : String) (h : keyClean s = true) : pyLower s = s := by
  rw [pyLower, map_id_of_fix charLower s.data
    (fun c hc => charLower_fix c (keyClean_chars s h c hc))]

theorem keyClean_head (s : String) (h : keyClean s = true) :
    ¬ (s.data.headD ' ' = ';') := by
  have hchars := keyClean_chars s h
  obtain ⟨d⟩ := s
  cases d with
  | nil =>
    exfalso
    rw [keyClean, Bool.and_eq_true] at h
    exact (of_decide_eq_true h.1) rfl
  | cons c rest =>
    intro hc
    have hcl := hchars c (List.mem_cons_self _ _)
    rw [List.headD_cons] at hc
    subst hc
    exact absurd hcl (by decide)

/-! ## C1: association list lemmas -/

theorem alist_lookup_cases {α : Type _} :
    ∀ (l : List (String × α)) (k : String),
      l.lookup k = none ∨ ∃ x, l.lookup k = some x ∧ (k, x) ∈ l := by
  intro l
  induction l with
  | nil => intro k; exact Or.inl rfl
  | cons p rest ih =>
    intro k
    obtain ⟨a, b⟩ := p
    by_cases hk : k = a
    · subst hk
      exact Or.inr ⟨b, by simp [List.lookup_cons], List.mem_cons_self _ _⟩
    · have hkb : (k == a) = false := beq_eq_false_iff_ne.mpr hk
      rcases ih k with hnone | ⟨x, hx, hmem⟩
      · exact Or.inl (by simp [List.lookup_cons, hkb, hnone])
      · exact Or.inr ⟨x, by simp [List.lookup_cons, hkb, hx],
          List.mem_cons_of_mem _ hmem⟩

theorem alist_lookup_some_mem {α : Type _} (l : List (String × α)) (k : String)
    (x : α) (h : l.lookup k = some x) : (k, x) ∈ l := by
  rcases alist_lookup_cases l k with hnone | ⟨y, hy, hmem⟩
  · rw [h] at hnone; cases hnone
  · rw [h] at hy; injection hy with hy; subst hy; exact hmem

theorem alist_lookup_of_mem_fst {α : Type _} :
    ∀ (l : List (String × α)) (k : String), k ∈ l.map Prod.fst →
      ∃ x, l.lookup k = some x := by
  intro l
  induction l with
  | nil => intro k h; simp at h
  | cons p rest ih =>
    intro k h
    obtain ⟨a, b⟩ := p
    by_cases hk : k = a
    · subst hk; exact ⟨b, by simp [List.lookup_cons]⟩
    · have hkb : (k == a) = false := beq_eq_false_iff_ne.mpr hk
      rw [List.map_cons, List.mem_cons] at h
      rcases h with h1 | h2
      · exact absurd h1 hk
      · obtain ⟨x, hx⟩ := ih k h2
        exact ⟨x, by simp [List.lookup_cons, hkb, hx]⟩

theorem alist_mem_fst_of_lookup {α : Type _} (l : List (String × α)) (k : String)
    (x : α) (h : l.lookup k = some x) : k ∈ l.map Prod.fst := by
  have := alist_lookup_some_mem l k x h
  exact List.mem_map.mpr ⟨(k, x), this, rfl⟩

theorem alist_lookup_none_of_not_mem {α : Type _} (l : List (String × α)) (k : String)
    (h : k ∉ l.map Prod.fst) : l.lookup k = none := by
  cases hl : l.lookup k with
  | none => rfl
  | some x => exact absurd (alist_mem_fst_of_lookup l k x hl) h

theorem alist_contains_of_lookup_some {α : Type _} (l : List (String × α))
    (k : String) (x : α) (h : l.lookup k = some x) :
    (l.map Prod.fst).contains k = true :=
  List.elem_eq_true_of_mem (alist_mem_fst_of_lookup l k x h)

theorem alist_contains_of_lookup_none {α : Type _} (l : List (String × α))
    (k : String) (h : l.lookup k = none) :
    (l.map Prod.fst).contains k = false := by
  cases hc : (l.map Prod.fst).contains k with
  | false => rfl
  | true =>
    obtain ⟨x, hx⟩ := alist_lookup_of_mem_fst l k (List.mem_of_elem_eq_true hc)
    rw [h] at hx
    exact Option.noConfusion hx

theorem alSet_lookup :
    ∀ (l : List (String × Value)) (k k0 : String) (v : Value),
      (alSet k0 v l).lookup k = if k = k0 then some v else l.lookup k := by
  intro l
  induction l with
  | nil =>
    intro k k0 v
    rw [alSet]
    by_cases hk : k = k0
    · subst hk; simp [List.lookup_cons]
    · simp [List.lookup_cons, beq_eq_false_iff_ne.mpr hk, hk]
  | cons p rest ih =>
    intro k k0 v
    obtain ⟨a, b⟩ := p
    rw [alSet]
    by_cases ha : a = k0
    · subst ha
      by_cases hk : k = a
      · subst hk; simp [List.lookup_cons]
      · simp [List.lookup_cons, beq_eq_false_iff_ne.mpr hk, hk]
    · rw [if_neg ha]
      by_cases hk : k = a
      · subst hk
        have hk0 : ¬ (k = k0) := fun hh => ha hh
        simp [List.lookup_cons, hk0]
      · simp [List.lookup_cons, beq_eq_false_iff_ne.mpr hk, ih k k0 v]

/-! ## C1: enum membership, splitting, key-list normalisation -/

theorem pyEqV_str (fuel : Nat) (s : String) (w : Value) :
    pyEqV (fuel + 1) (.vStr s) w
      = (match w with | .vStr t => s == t | _ => false) := by
  cases w <;> rfl

theorem pyMem_str (fuel : Nat) (s : String) :
    ∀ opts, pyMem (fuel + 1) (.vStr s) opts = enumHasStr s opts := by
  intro opts
  induction opts with
  | nil => rfl
  | cons w rest ih =>
    have hstep : pyMem (fuel + 1) (.vStr s) (w :: rest)
        = (pyEqV (fuel + 1) (.vStr s) w || pyMem (fuel + 1) (.vStr s) rest) := by
      simp only [pyMem, List.any_cons]
    rw [hstep, ih, pyEqV_str]
    cases w <;> rfl

theorem splitChars_no_sep (sep : Char) :
    ∀ l : List Char, l.contains sep = false → splitChars sep l = [String.mk l] := by
  intro l
  induction l with
  | nil => intro h; rfl
  | cons c rest ih =>
    intro h
    rw [List.contains_cons, Bool.or_eq_false_iff] at h
    rw [splitChars, ih h.2]
    dsimp only
    rw [if_neg (fun hh : c = sep => (beq_eq_false_iff_ne.mp h.1) hh.symm)]

theorem splitOnChar_no_sep (sep : Char) (s : String) (h : strContains s sep = false) :
    splitOnChar sep s = [s] := by
  rw [strContains] at h
  rw [splitOnChar, splitChars_no_sep sep s.data h]

theorem dedupKeys_of_nodup : ∀ l : List String, l.Nodup → dedupKeys l = l := by
  intro l
  induction l with
  | nil => intro h; rfl
  | cons k rest ih =>
    intro h
    have hk : k ∉ rest := (List.nodup_cons.mp h).1
    rw [dedupKeys, ih (List.nodup_cons.mp h).2]
    have hfil : List.filter (fun x => decide (x ≠ k)) rest = rest :=
      List.filter_eq_self.mpr
        (fun a ha => decide_eq_true (fun heq : a = k => hk (heq ▸ ha)))
    rw [hfil]

theorem flatChecker_not_ignore (c : Checker) (h : flatChecker c = true) :
    (c matches .co .cIgnore) = false := by
  cases c with
  | co t =>
    cases t with
    | cIgnore => exact absurd h (by decide)
    | cInt => rfl
    | cStr => rfl
    | cBool => rfl
  | cTrue => rfl
  | cFalse => rfl
  | cSym s => rfl
  | enum opts => rfl
  | nestedRules rs => rfl
  | mkDict a b r => rfl
  | mkList a b r => rfl

theorem ignoredKeys_of_flat (rs : List (String × Rule))
    (h : ∀ kr ∈ rs, flatRule kr.2 = true) : ignoredKeys rs = [] := by
  rw [ignoredKeys]
  rw [List.filter_eq_nil_iff.mpr (fun kr hkr => by
    intro hm
    have hfr := h kr hkr
    rw [flatRule, Bool.and_eq_true] at hfr
    have hfc := hfr.1
    cases hcc : kr.2.check with
    | co t =>
      cases t with
      | cIgnore => rw [hcc] at hfc; exact absurd hfc (by decide)
      | cInt =>
        rw [hcc] at hm
        exact Bool.noConfusion (show (false : Bool) = true from hm)
      | cStr =>
        rw [hcc] at hm
        exact Bool.noConfusion (show (false : Bool) = true from hm)
      | cBool =>
        rw [hcc] at hm
        exact Bool.noConfusion (show (false : Bool) = true from hm)
    | cTrue =>
      rw [hcc] at hm
      exact Bool.noConfusion (show (false : Bool) = true from hm)
    | cFalse =>
      rw [hcc] at hm
      exact Bool.noConfusion (show (false : Bool) = true from hm)
    | cSym s =>
      rw [hcc] at hm
      exact Bool.noConfusion (show (false : Bool) = true from hm)
    | enum o =>
      rw [hcc] at hm
      exact Bool.noConfusion (show (false : Bool) = true from hm)
    | nestedRules r2 =>
      rw [hcc] at hm
      exact Bool.noConfusion (show (false : Bool) = true from hm)
    | mkDict a b r2 =>
      rw [hcc] at hm
      exact Bool.noConfusion (show (false : Bool) = true from hm)
    | mkList a b r2 =>
      rw [hcc] at hm
      exact Bool.noConfusion (show (false : Bool) = true from hm))]
  rfl

theorem contains_false_of_forall_ne (l : List String) (x : String)
    (h : ∀ a ∈ l, a ≠ x) : l.contains x = false := by
  cases hc : l.contains x with
  | false => rfl
  | true => exact absurd rfl (h x (List.mem_of_elem_eq_true hc))

theorem filter_not_any (l : List String) (h : ∀ k ∈ l, k ≠ "_any") :
    l.filter (fun k => ¬ (List.contains ["_any"] k = true)) = l := by
  apply List.filter_eq_self.mpr
  intro a ha
  have hcf : (List.contains ["_any"] a) = false := by
    rw [List.contains_cons]
    simp [beq_eq_false_iff_ne.mpr (h a ha)]
  simp [hcf]
  exact h a ha

theorem filterMap_fst_sublist {β : Type _} (f : String → Option (String × β))
    (hf : ∀ k p, f k = some p → p.1 = k) :
    ∀ l : List String, ((l.filterMap f).map Prod.fst).Sublist l := by
  intro l
  induction l with
  | nil => simp
  | cons k rest ih =>
    rw [List.filterMap_cons]
    cases hg : f k with
    | none => exact ih.cons _
    | some p =>
      rw [List.map_cons, hf k p hg]
      exact ih.cons₂ _

/-! ## C1: the per-key write -/

theorem lazyRule_flat (a b : String) (r : Rule) (h : flatChecker r.check = true) :
    lazyRule a b r = r := by
  obtain ⟨cm, chk, df, ty⟩ := r
  cases chk <;>
    first
      | rfl
      | exact Bool.noConfusion (show (false : Bool) = true from h)

theorem getRuleD_flat (n c : String) (sb ch : Bool) (rs : List (String × Rule))
    (st : List (String × Value)) (k : String) (r : Rule)
    (hk : pyLower k = k) (hr : rs.lookup k = some r)
    (hc : flatChecker r.check = true) :
    getRuleD (CDict.mk n c sb ch rs st) k = .ok r := by
  rw [getRuleD]
  simp only [CDict.rules, CDict.name, hk, hr]
  rw [lazyRule_flat _ _ _ hc]

theorem getItemD_flat (n c : String) (sb ch : Bool) (rs : List (String × Rule))
    (st : List (String × Value)) (k : String) (r : Rule)
    (hk : pyLower k = k) (hr : rs.lookup k = some r) :
    getItemD (CDict.mk n c sb ch rs st) k
      = .ok (match st.lookup k with | some v => v | none => r.dflt.toValue) := by
  have h1 : alHasR k rs = true := by rw [alHasR, hr]; rfl
  rw [getItemD]
  simp only [CDict.rules, CDict.store, hk]
  rw [if_pos (Or.inl h1), dictGet]
  simp only [CDict.rules, CDict.store, hk]
  cases hl : st.lookup k with
  | some v => rfl
  | none =>
    dsimp only
    rw [hr]

theorem setItemD_flat_write (fuel : Nat) (n c : String) (sb ch : Bool)
    (rs : List (String × Rule)) (st : List (String × Value))
    (k : String) (r : Rule) (v : Value)
    (hk : pyLower k = k) (hr : rs.lookup k = some r)
    (hc : flatChecker r.check = true) (hv : legalStored r.check v = true) :
    setItemD (fuel + 2) (CDict.mk n c sb ch rs st) k (.vStr (pyStr v))
      = .ok (CDict.mk n c sb (sb || ch) rs (alSet k v st), !sb) := by
  have hrule := getRuleD_flat n c sb ch rs st k r hk hr hc
  rw [show fuel + 2 = (fuel + 1) + 1 from rfl, setItemD]
  simp only [bind, Except.bind, hrule, hk]
  try dsimp only
  cases hchk : r.check with
  | cTrue => rw [hchk] at hc; exact absurd hc (by decide)
  | cFalse => rw [hchk] at hc; exact absurd hc (by decide)
  | cSym s =>
    rw [hchk] at hc
    exact Bool.noConfusion (show (false : Bool) = true from hc)
  | nestedRules rs2 =>
    rw [hchk] at hc
    exact Bool.noConfusion (show (false : Bool) = true from hc)
  | mkDict a2 b2 r2 =>
    rw [hchk] at hc
    exact Bool.noConfusion (show (false : Bool) = true from hc)
  | mkList a2 b2 r2 =>
    rw [hchk] at hc
    exact Bool.noConfusion (show (false : Bool) = true from hc)
  | enum opts =>
    rw [hchk] at hv
    rcases v with _ | m | b | s | es | xs | dd | ll <;>
      try exact Bool.noConfusion (show (false : Bool) = true from hv)
    have hv2 : (decide (s ≠ "") && enumHasStr s opts) = true := hv
    rw [Bool.and_eq_true] at hv2
    dsimp only
    rw [if_pos (show pyMem (fuel + 1) (.vStr (pyStr (.vStr s))) opts = true by
      show pyMem (fuel + 1) (.vStr s) opts = true
      rw [pyMem_str]
      exact hv2.2)]
    cases sb <;> rfl
  | co t =>
    rw [hchk] at hv hc
    dsimp only
    cases t with
    | cIgnore => exact absurd hc (by decide)
    | cInt =>
      rcases v with _ | m | b | s | es | xs | dd | ll <;>
        try exact Bool.noConfusion (show (false : Bool) = true from hv)
      have hco : coerceVal (fuel + 1) (.co .cInt) (.vStr (pyStr (.vInt m)))
          = .ok (.vInt m, false) := by
        rw [coerceVal]
        dsimp only [pyStr]
        rw [pyIntCoerce, pyIntOfStr_intDec]
        rfl
      rw [hco]
      cases sb <;> rfl
    | cStr =>
      rcases v with _ | m | b | s | es | xs | dd | ll <;>
        try exact Bool.noConfusion (show (false : Bool) = true from hv)
      have hco : coerceVal (fuel + 1) (.co .cStr) (.vStr (pyStr (.vStr s)))
          = .ok (.vStr s, false) := by rfl
      rw [hco]
      cases sb <;> rfl
    | cBool =>
      rcases v with _ | m | b | s | es | xs | dd | ll <;>
        try exact Bool.noConfusion (show (false : Bool) = true from hv)
      have hco : coerceVal (fuel + 1) (.co .cBool) (.vStr (pyStr (.vBool b)))
          = .ok (.vBool b, false) := by cases b <;> rfl
      rw [hco]
      cases sb <;> rfl

/-! ## C1: value shapes of a flat tree -/

theorem legalStored_props (chk : Checker) (v : Value) (h : legalStored chk v = true) :
    isContainerV v = false ∧ isEmptyStrV v = false ∧
      ((∃ m, v = .vInt m) ∨ (∃ b, v = .vBool b) ∨ (∃ s, v = .vStr s)) := by
  cases chk with
  | co t =>
    cases t with
    | cInt =>
      rcases v with _ | m | b | s | es | xs | dd | ll <;>
        try exact Bool.noConfusion (show (false : Bool) = true from h)
      exact ⟨rfl, rfl, Or.inl ⟨m, rfl⟩⟩
    | cStr =>
      rcases v with _ | m | b | s | es | xs | dd | ll <;>
        try exact Bool.noConfusion (show (false : Bool) = true from h)
      refine ⟨rfl, ?_, Or.inr (Or.inr ⟨s, rfl⟩)⟩
      show decide (s = "") = false
      exact decide_eq_false (of_decide_eq_true (show decide (s ≠ "") = true from h))
    | cBool =>
      rcases v with _ | m | b | s | es | xs | dd | ll <;>
        try exact Bool.noConfusion (show (false : Bool) = true from h)
      exact ⟨rfl, rfl, Or.inr (Or.inl ⟨b, rfl⟩)⟩
    | cIgnore =>
      rcases v with _ | m | b | s | es | xs | dd | ll <;>
        exact Bool.noConfusion (show (false : Bool) = true from h)
  | enum opts =>
    rcases v with _ | m | b | s | es | xs | dd | ll <;>
      try exact Bool.noConfusion (show (false : Bool) = true from h)
    have h2 : (decide (s ≠ "") && enumHasStr s opts) = true := h
    rw [Bool.and_eq_true] at h2
    refine ⟨rfl, ?_, Or.inr (Or.inr ⟨s, rfl⟩)⟩
    show decide (s = "") = false
    exact decide_eq_false (of_decide_eq_true h2.1)
  | cTrue =>
    rcases v with _ | m | b | s | es | xs | dd | ll <;>
      exact Bool.noConfusion (show (false : Bool) = true from h)
  | cFalse =>
    rcases v with _ | m | b | s | es | xs | dd | ll <;>
      exact Bool.noConfusion (show (false : Bool) = true from h)
  | cSym s2 =>
    rcases v with _ | m | b | s | es | xs | dd | ll <;>
      exact Bool.noConfusion (show (false : Bool) = true from h)
  | nestedRules r2 =>
    rcases v with _ | m | b | s | es | xs | dd | ll <;>
      exact Bool.noConfusion (show (false : Bool) = true from h)
  | mkDict a2 b2 c2 =>
    rcases v with _ | m | b | s | es | xs | dd | ll <;>
      exact Bool.noConfusion (show (false : Bool) = true from h)
  | mkList a2 b2 c2 =>
    rcases v with _ | m | b | s | es | xs | dd | ll <;>
      exact Bool.noConfusion (show (false : Bool) = true from h)

theorem dfltScalar_shape (d : Dflt) (h : dfltScalar d = true) :
    d.toValue = .vNil ∨ (∃ m, d.toValue = .vInt m) ∨ (∃ b, d.toValue = .vBool b)
      ∨ (∃ s, d.toValue = .vStr s) := by
  cases d with
  | v w =>
    cases w <;>
      first
        | exact Or.inl rfl
        | exact Or.inr (Or.inl ⟨_, rfl⟩)
        | exact Or.inr (Or.inr (Or.inl ⟨_, rfl⟩))
        | exact Or.inr (Or.inr (Or.inr ⟨_, rfl⟩))
        | exact Bool.noConfusion (show (false : Bool) = true from h)
  | dmap rs2 => exact Bool.noConfusion (show (false : Bool) = true from h)
  | dlist rs2 => exact Bool.noConfusion (show (false : Bool) = true from h)

theorem insSortBy_perm {α : Type _} (le : α → α → Bool) (l : List α) :
    List.Perm (insSortBy le l) l :=
  List.perm_insertionSort _ l

/-! ## C1: applying the written items back -/

theorem parseItems_flat (fuel : Nat) (src sect : String) (nm c : String) (sb : Bool)
    (rs : List (String × Rule)) (st : List (String × Value)) (warns : List String) :
    ∀ (items : List (String × String)) (ch : Bool) (st2 : List (String × Value)),
      (∀ i ∈ items, ∃ r v, pyLower i.1 = i.1 ∧ rs.lookup i.1 = some r ∧
          flatChecker r.check = true ∧ legalStored r.check v = true ∧
          st.lookup i.1 = some v ∧ i.2 = pyStr v) →
      ∃ ch2 st3,
        parseItems (fuel + 2) src sect (.vDict (CDict.mk nm c sb ch rs st2)) [] items true warns
          = .ok (.vDict (CDict.mk nm c sb ch2 rs st3), true, warns) ∧
        (∀ k, k ∉ items.map Prod.fst → st3.lookup k = st2.lookup k) ∧
        ((items.map Prod.fst).Nodup → ∀ i ∈ items, st3.lookup i.1 = st.lookup i.1) := by
  intro items
  induction items with
  | nil =>
    intro ch st2 _
    exact ⟨ch, st2, rfl, fun k _ => rfl, fun _ i hi => absurd hi (List.not_mem_nil _)⟩
  | cons i rest ih =>
    intro ch st2 hitems
    obtain ⟨r, v, hlk, hr, hfc, hlv, hstk, hpv⟩ := hitems i (List.mem_cons_self _ _)
    obtain ⟨i1, i2⟩ := i
    subst hpv
    have hset := setItemD_flat_write fuel nm c sb ch rs st2 i1 r v hlk hr hfc hlv
    have hpath : setAtPathV (fuel + 2) (.vDict (CDict.mk nm c sb ch rs st2)) [] i1
        (.vStr (pyStr v))
        = .ok (.vDict (CDict.mk nm c sb (sb || ch) rs (alSet i1 v st2)), !sb) := by
      rw [setAtPathV]
      try dsimp only
      rw [hset]
      rfl
    obtain ⟨ch2, st3, hrec, hout, hin⟩ := ih (sb || ch) (alSet i1 v st2)
      (fun x hx => hitems x (List.mem_cons_of_mem _ hx))
    refine ⟨ch2, st3, ?_, ?_, ?_⟩
    · rw [parseItems, hpath]
      exact hrec
    · intro k hk
      have hk1 : k ≠ i1 := fun hh => hk (by rw [hh, List.map_cons]; exact List.mem_cons_self _ _)
      have hk2 : k ∉ rest.map Prod.fst :=
        fun hh => hk (by rw [List.map_cons]; exact List.mem_cons_of_mem _ hh)
      rw [hout k hk2, alSet_lookup, if_neg hk1]
    · intro hnd j hj
      rw [List.map_cons] at hnd
      have hni : i1 ∉ rest.map Prod.fst := (List.nodup_cons.mp hnd).1
      rcases List.mem_cons.mp hj with rfl | hj2
      · show st3.lookup i1 = st.lookup i1
        rw [hout i1 hni, alSet_lookup, if_pos rfl, hstk]
      · exact hin (List.nodup_cons.mp hnd).2 j hj2

/-! ## C1: the round trip -/

/-- C1: the claim says exporting a configuration tree and parsing the
text back reproduces its contents.  Under Python 3 the round trip never
completes for any tree; the three conjuncts cover the three ways it dies.
A flat schema with a stored value reaches config.set(section, key, value,
comment), which stdlib ConfigParser rejects with TypeError (four
positional arguments).  A flat schema whose only value is filtered out
(the empty-string default of flatStrRules0) exports an empty parser,
whose written output b-empty then hits the parse_config prologue
io.BytesIO(str(data)) TypeError.  A wildcard schema dies earlier still,
in as_config itself, where keys.extend is called on a dict_keys view. -/
theorem c1_roundtrip_raises :
    exportThenParse 9 flatRootSet flatRoot =
      .error (.typeError "set() takes from 2 to 4 positional arguments but 5 were given") ∧
    exportThenParse 9 (CDict.mk "config" "" true false flatStrRules0 []) flatRoot =
      .error (.typeError "a bytes-like object is required, not str") ∧
    exportThenParse 9 (CDict.mk "config" "" true false wildStrRules []) flatRoot =
      .error (.attrError "dict_keys object has no attribute extend") := by
  exact ⟨rfl, rfl, rfl⟩

theorem c3_walk_access_witness :
    containerKeyTypes (Value.vDict c3Dict) "k" = .ok ["key"] ∧
    (["key"].any (fun t => ¬ ["public"].contains t) = true) ∧
    walkSegs (Value.vDict c3Dict) ["k"] (some ["public"]) =
      .error (.accessDenied ("Access denied to " ++ "k")) := by
  refine ⟨rfl, by decide, ?_⟩
  exact (c3_walk_access (Value.vDict c3Dict) "k" [] ["public"] ["key"] rfl).1 (by decide)

end Mailpile
